import Mathlib

/-!
Verification of the `calc` expression-evaluator core against its specification.

The C++ sources are shallowly embedded as executable Lean definitions:

* `LexemeType`, `PrimitiveTokenType`, `Token` — src/calc/tokenizer/types/LexemeType.h,
  src/calc/tokenizer/types/PrimitiveTokenType.h, src/calc/tokenizer/token.hpp.
  The snapshot's type headers are stale (they lack members such as `Negate`,
  `Setter`, `TermSeparator`, `Separator`, `Underscore`, `BitshiftLeft`, ... that the
  tokenizers, src/calc/OperatorPrecedence.hpp and the evaluator use); the member
  lists below are the union of the stale headers and every member referenced by
  the code under src/.
* the lexer — src/calc/tokenizer/lexer.hpp (`lexer::getNextLexeme`, `lexer::get_lexemes`).
* the primitive tokenizer — src/libcalc/include/tokenizer/primitive_tokenizer.hpp
  (the variant instantiated by src/calc/calc.cpp via custom_primitive_tokenizer).
* shunting-yard — src/calc/to_rpn.hpp with src/calc/OperatorPrecedence.hpp.
* the RPN evaluator — src/libcalc/include/evaluate_rpn.hpp.
* the Number model — src/libcalc/include/Number.hpp.  `cpp_int` is embedded as `ℤ`;
  the 100-digit decimal float `cpp_dec_float_100` is embedded as `ℚ` (exact on all
  values the claims exercise; construction-time normalization `trunc(v) == v` is the
  rational truncation test).
* base conversion — src/libcalc/include/baseconv.h and num_to_bin of src/calc/calc.cpp.
* the per-statement driver loop — src/calc/calc.cpp (split on Separator, the Setter
  special case, the VarMap store) with split_vec of src/calc/helpers/vec_helpers.h.

Machine integers: stream positions are embedded as `ℕ`, the unsigned lookahead depth
counter of `to_rpn` as `ℤ` (the C++ `unsigned` wraps at 2^32; on every input where no
close bracket precedes its open bracket the two agree, and no 2^32-deep nesting is
representable in the claims' scope).  Exceptions are embedded as `Except Err`.
-/

namespace CalcSpec

instance exceptDecEq {ε α : Type} [DecidableEq ε] [DecidableEq α] :
    DecidableEq (Except ε α) := fun x y =>
  match x, y with
  | .ok a, .ok b =>
    if h : a = b then .isTrue (by rw [h]) else .isFalse (fun hc => h (Except.ok.inj hc))
  | .error a, .error b =>
    if h : a = b then .isTrue (by rw [h]) else .isFalse (fun hc => h (Except.error.inj hc))
  | .ok _, .error _ => .isFalse (fun hc => Except.noConfusion hc)
  | .error _, .ok _ => .isFalse (fun hc => Except.noConfusion hc)

/-- Lexeme type enum of src/calc/tokenizer/types/LexemeType.h (plus `Underscore`,
which the lexer of src/calc/tokenizer/lexer.hpp emits but the stale header lacks). -/
inductive LexemeType : Type where
  | Unknown
  | Escape
  | Equal
  | Colon
  | Semicolon
  | Operator
  | Alpha
  | Underscore
  | IntNumber
  | RealNumber
  | BinaryNumber
  | OctalNumber
  | HexNumber
  | Period
  | Comma
  | MacroSign
  | AngleBracketOpen
  | AngleBracketClose
  | SquareBracketOpen
  | SquareBracketClose
  | ParenthesisOpen
  | ParenthesisClose
  | BraceOpen
  | BraceClose
  | EOF
deriving DecidableEq, Repr

/-- Primitive token type enum of src/calc/tokenizer/types/PrimitiveTokenType.h,
extended with every member the tokenizers, src/calc/OperatorPrecedence.hpp and
src/libcalc/include/evaluate_rpn.hpp reference (the updated header is absent from
the snapshot). -/
inductive PrimitiveTokenType : Type where
  | Unknown
  | Variable
  | ExpressionOpen
  | ExpressionClose
  | FunctionName
  | Boolean
  | IntNumber
  | RealNumber
  | BinaryNumber
  | OctalNumber
  | HexNumber
  | Add
  | Subtract
  | Negate
  | Multiply
  | Divide
  | Modulo
  | Exponent
  | Factorial
  | BitshiftLeft
  | BitshiftRight
  | BitOR
  | BitAND
  | BitXOR
  | BitNOT
  | Equal
  | NotEqual
  | LessThan
  | LessOrEqual
  | GreaterThan
  | GreaterOrEqual
  | LogicalNOT
  | LogicalOR
  | LogicalAND
  | Setter
  | TermSeparator
  | Separator
  | ArrayOpen
  | ArrayClose
deriving DecidableEq, Repr

/-- `basic_token` of src/calc/tokenizer/token.hpp: a token type, the starting
position in the input stream, and the underlying text. -/
structure Token (τ : Type) where
  type : τ
  pos : Nat
  text : List Char
deriving DecidableEq, Repr

abbrev Lexeme := Token LexemeType
abbrev Primitive := Token PrimitiveTokenType

/-- `basic_token::getEndPos`: the exclusive end position. -/
def Token.getEndPos {τ : Type} (t : Token τ) : Nat :=
  t.pos + t.text.length

/-- `basic_token::isAdjacentTo(other)`: `other.getEndPos() == pos || getEndPos() == other.pos`. -/
def Token.isAdjacentTo {τ₁ τ₂ : Type} (t : Token τ₁) (other : Token τ₂) : Bool :=
  other.getEndPos = t.pos || t.getEndPos = other.pos

/-- `combine_tokens` of src/calc/tokenizer/token.hpp for exactly two tokens: the
merged token starts at the first token's position and pads any positional gap with
spaces.  (The C++ throws when the tokens overlap out of order; every call site
combines an earlier token with a later one, embedded here with truncated
subtraction producing an empty pad in the impossible case.) -/
def combine2 {τ : Type} (ty : τ) (a b : Lexeme) : Token τ :=
  ⟨ty, a.pos, a.text ++ List.replicate (b.pos - a.getEndPos) ' ' ++ b.text⟩

/-- Step of `combine_tokens` over a vector: append one more token, padding the gap. -/
def combineStep (accText : List Char) (accEnd : Nat) (t : Lexeme) : List Char × Nat :=
  (accText ++ List.replicate (t.pos - accEnd) ' ' ++ t.text, t.getEndPos)

def combineGo (accText : List Char) (accEnd : Nat) : List Lexeme → List Char
  | [] => accText
  | t :: rest =>
    let s := combineStep accText accEnd t
    combineGo s.1 s.2 rest

/-- `combine_tokens(type, vector)` of src/calc/tokenizer/token.hpp: concatenate a
range of tokens (with positional gap padding) into one merged token. -/
def combineTokens {τ : Type} (ty : τ) : List Lexeme → Token τ
  | [] => ⟨ty, 0, []⟩
  | t :: rest => ⟨ty, t.pos, combineGo t.text t.getEndPos rest⟩

/-- `stringify_tokens<false>` of src/calc/tokenizer/token.hpp: the concatenated text
of a token range without the leading whitespace (gaps between tokens padded). -/
def stringifyTokens : List Lexeme → List Char
  | [] => []
  | t :: rest => combineGo t.text t.getEndPos rest

/-! ## Character classes (matching `str::stdpred` and the lexer's dispatch) -/

/-- The whitespace set the lexer skips: `' '  '\t'  '\v'  '\r'  '\n'`. -/
def isWsChar (c : Char) : Bool :=
  c = ' ' || c = '\t' || c = (Char.ofNat 11) || c = '\r' || c = '\n'

/-- ASCII `isalpha`. -/
def isAlphaChar (c : Char) : Bool :=
  ('a' ≤ c && c ≤ 'z') || ('A' ≤ c && c ≤ 'Z')

/-- ASCII `isdigit`. -/
def isDigitChar (c : Char) : Bool :=
  '0' ≤ c && c ≤ '9'

/-- `str::isbinarydigit`. -/
def isBinDigitChar (c : Char) : Bool :=
  c = '0' || c = '1'

/-- `str::ishexdigit`. -/
def isHexDigitChar (c : Char) : Bool :=
  isDigitChar c || ('a' ≤ c && c ≤ 'f') || ('A' ≤ c && c ≤ 'F')

/-! ## Lexer — src/calc/tokenizer/lexer.hpp -/

/-- The binary-literal body loop of `lexer::getNextLexeme` (labels
`GET_NEXT_BINARY_SEGMENT`): read `[01]*`, and keep an underscore (continuing with
another segment) exactly when the character after it is a binary digit.
Returns (characters consumed into the lexeme, remaining input). -/
def binaryBody : Nat → List Char → List Char × List Char
  | 0, cs => ([], cs)
  | fuel + 1, cs =>
    let ds := cs.takeWhile isBinDigitChar
    let rest := cs.dropWhile isBinDigitChar
    if rest.head? = some '_' && (rest.tail.head? = some '0' || rest.tail.head? = some '1') then
      let more := binaryBody fuel rest.tail
      (ds ++ '_' :: more.1, more.2)
    else (ds, rest)

/-- The octal/integer/real accumulation loop of `lexer::getNextLexeme` (the
`while (nextCharIs(...))` loop): keep taking digits, `.`, `,`, `_`, with the
decimal-point and comma rules of the source.  Returns
(consumed characters, final hasDecimalPoint, final has8DigitOrHigher, remaining input). -/
def decimalLoop : Nat → List Char → Bool → Bool → List Char × Bool × Bool × List Char
  | 0, cs, hasPoint, has89 => ([], hasPoint, has89, cs)
  | fuel + 1, cs, hasPoint, has89 =>
    match cs with
    | [] => ([], hasPoint, has89, [])
    | c :: rest =>
      if c = '.' || c = ',' || c = '_' || isDigitChar c then
        if c = '.' then
          if hasPoint then
            ([], hasPoint, has89, c :: rest)
          else
            let r := decimalLoop fuel rest true has89
            (c :: r.1, r.2.1, r.2.2.1, r.2.2.2)
        else if c = ',' && !(match rest with | d :: _ => isDigitChar d | [] => false) then
          ([], hasPoint, has89, c :: rest)
        else if hasPoint && c = ',' then
          ([], hasPoint, has89, c :: rest)
        else
          let has89' := has89 || c = '8' || c = '9'
          let r := decimalLoop fuel rest hasPoint has89'
          (c :: r.1, r.2.1, r.2.2.1, r.2.2.2)
      else ([], hasPoint, has89, c :: rest)

/-- The numeric branch of `lexer::getNextLexeme` (label `PARSE_NUMBER`), entered with
the first character `c` already consumed.  Returns the lexeme, the remaining input
and the updated stream position. -/
def parseNumber (c : Char) (cs : List Char) (pos : Nat) : Lexeme × List Char × Nat :=
  let startsWithZero := c = '0'
  match cs with
  | [] =>
    (⟨if startsWithZero then .OctalNumber else .IntNumber, pos, [c]⟩, [], pos + 1)
  | c2 :: rest2 =>
    if startsWithZero && c2 = 'b' then
      let body := binaryBody (rest2.length + 1) rest2
      (⟨.BinaryNumber, pos, c :: 'b' :: body.1⟩, body.2, pos + 2 + body.1.length)
    else if startsWithZero && c2 = 'x' then
      let ds := rest2.takeWhile isHexDigitChar
      (⟨.HexNumber, pos, c :: 'x' :: ds⟩, rest2.dropWhile isHexDigitChar, pos + 2 + ds.length)
    else
      let hasPoint := c2 = '.' || c = '.'
      let has89 := c2 = '8' || c2 = '9'
      if hasPoint || has89 || ('0' ≤ c2 && c2 ≤ '7') then
        let r := decimalLoop (rest2.length + 1) rest2 hasPoint has89
        let buf := c :: c2 :: r.1
        let ty : LexemeType :=
          if r.2.1 then .RealNumber
          else if startsWithZero && !r.2.2.1 then .OctalNumber
          else .IntNumber
        (⟨ty, pos, buf⟩, r.2.2.2, pos + buf.length)
      else
        (⟨if startsWithZero then .OctalNumber else .IntNumber, pos, [c]⟩, c2 :: rest2, pos + 1)

/-- `lexer::getNextLexeme`: skip whitespace, then produce one lexeme.  Returns the
lexeme, the remaining input and the updated stream position.  At end of input it
returns the dedicated EOF lexeme (whose text is the single char the failed stream
read leaves behind). -/
def getNextLexeme : List Char → Nat → Lexeme × List Char × Nat
  | [], pos => (⟨.EOF, pos, [Char.ofNat 0]⟩, [], pos)
  | c :: cs, pos =>
    if isWsChar c then getNextLexeme cs (pos + 1)
    else if isAlphaChar c then (⟨.Alpha, pos, [c]⟩, cs, pos + 1)
    else if isDigitChar c then parseNumber c cs pos
    else if c = '\\' then
      match cs with
      | d :: cs2 => (⟨.Escape, pos, [c, d]⟩, cs2, pos + 2)
      | [] => (⟨.Escape, pos, [c, Char.ofNat 0]⟩, [], pos + 1)
    else if c = '=' then (⟨.Equal, pos, [c]⟩, cs, pos + 1)
    else if c = ':' then (⟨.Colon, pos, [c]⟩, cs, pos + 1)
    else if c = ';' then (⟨.Semicolon, pos, [c]⟩, cs, pos + 1)
    else if c = '+' || c = '-' || c = '*' || c = '/' || c = '%' || c = '!' || c = '|' || c = '&' || c = '^' || c = '~' then
      (⟨.Operator, pos, [c]⟩, cs, pos + 1)
    else if c = '_' then (⟨.Underscore, pos, [c]⟩, cs, pos + 1)
    else if c = '.' then
      match cs with
      | d :: _ =>
        if isDigitChar d then parseNumber c cs pos
        else (⟨.Period, pos, [c]⟩, cs, pos + 1)
      | [] => (⟨.Period, pos, [c]⟩, cs, pos + 1)
    else if c = ',' then (⟨.Comma, pos, [c]⟩, cs, pos + 1)
    else if c = '$' || c = '@' then (⟨.MacroSign, pos, [c]⟩, cs, pos + 1)
    else if c = '<' then (⟨.AngleBracketOpen, pos, [c]⟩, cs, pos + 1)
    else if c = '>' then (⟨.AngleBracketClose, pos, [c]⟩, cs, pos + 1)
    else if c = '[' then (⟨.SquareBracketOpen, pos, [c]⟩, cs, pos + 1)
    else if c = ']' then (⟨.SquareBracketClose, pos, [c]⟩, cs, pos + 1)
    else if c = '(' then (⟨.ParenthesisOpen, pos, [c]⟩, cs, pos + 1)
    else if c = ')' then (⟨.ParenthesisClose, pos, [c]⟩, cs, pos + 1)
    else if c = '{' then (⟨.BraceOpen, pos, [c]⟩, cs, pos + 1)
    else if c = '}' then (⟨.BraceClose, pos, [c]⟩, cs, pos + 1)
    else (⟨.Unknown, pos, [c]⟩, cs, pos + 1)

def getLexemesGo : Nat → List Char → Nat → List Lexeme
  | 0, _, _ => []
  | fuel + 1, cs, pos =>
    let r := getNextLexeme cs pos
    if r.1.type = .EOF then [r.1]
    else r.1 :: getLexemesGo fuel r.2.1 r.2.2

/-- `lexer::get_lexemes`: drain the stream into a lexeme vector; the final EOF
lexeme is included (the loop appends it before `good()` turns false). -/
def getLexemes (cs : List Char) : List Lexeme :=
  getLexemesGo (cs.length + 1) cs 0

/-! ## FunctionMap — src/libcalc/include/FunctionMap.hpp

The name → arity catalog is read off the `func` template instantiations in the
source (each `func(f)` wrapper's arity is the parameter count of the wrapped
function from src/libcalc/include/Number.hpp / intmath.hpp). -/

def defaultFunctions : List (String × Nat) :=
  [("cos", 1), ("sin", 1), ("tan", 1), ("acos", 1), ("asin", 1), ("atan", 1),
   ("atan2", 2),
   ("cosh", 1), ("sinh", 1), ("tanh", 1), ("acosh", 1), ("asinh", 1), ("atanh", 1),
   ("exp", 1), ("ldexp", 2), ("log", 1), ("log10", 1), ("exp2", 1), ("expm1", 1),
   ("ilogb", 1), ("log1p", 1), ("log2", 1), ("logb", 1), ("scalbn", 2),
   ("pow", 2), ("sqrt", 1), ("cbrt", 1), ("hypot", 2),
   ("erf", 1), ("erfc", 1), ("tgamma", 1), ("lgamma", 1),
   ("ceil", 1), ("floor", 1), ("fmod", 2), ("trunc", 1), ("round", 1),
   ("nearbyint", 1), ("remainder", 2),
   ("copysign", 2), ("nextafter", 2), ("nexttoward", 2),
   ("fdim", 2), ("max", 2), ("min", 2),
   ("abs", 1), ("fma", 3)]

/-- `FunctionMap::isFunction`. -/
def isFunction (name : List Char) : Bool :=
  defaultFunctions.any (fun p => p.1.data = name)

/-- `FunctionMap::getParamsCount` (via `base_func::getParamsCount`); `none` embeds
the null-pointer dereference on an unknown name. -/
def getParamsCount (name : List Char) : Option Nat :=
  (defaultFunctions.find? (fun p => p.1.data = name)).map Prod.snd

/-! ## Spec-modelled token predicates

`evaluates_to_number` and `is_number` are used by
src/libcalc/include/tokenizer/primitive_tokenizer.hpp, src/calc/to_rpn.hpp and
src/libcalc/include/evaluate_rpn.hpp but their definitions live in the updated
PrimitiveTokenType.h header that is absent from the snapshot. -/

/-- Modelled from the spec: `evaluates_to_number(PrimitiveTokenType)`, whose
definition is absent from src/.  Per spec §3 the operand variants are "Variable,
FunctionName, ExpressionOpen/Close, Boolean, the five numeric kinds"; a token that
"itself evaluates to a number" (spec §4.2) is here a numeric literal, a variable, a
boolean, or the close of a finished bracketed subexpression.  `FunctionName` and
`ExpressionOpen` are excluded: a function name alone (its arguments follow it) and
an unfinished open bracket do not themselves evaluate to a number, and the `'-'`
disambiguation in the source handles `ExpressionOpen` by an explicit extra
disjunct. -/
def evaluatesToNumber : PrimitiveTokenType → Bool
  | .Variable | .Boolean | .ExpressionClose
  | .IntNumber | .RealNumber | .BinaryNumber | .OctalNumber | .HexNumber => true
  | _ => false

/-- Modelled from the spec: `evaluates_to_number(LexemeType)`, whose definition is
absent from src/.  Spec §4.2 asks whether "the following lexeme evaluates to a
number"; for a single lexeme that is one of the five numeric-literal classes
(spec §3). -/
def lexEvaluatesToNumber : LexemeType → Bool
  | .IntNumber | .RealNumber | .BinaryNumber | .OctalNumber | .HexNumber => true
  | _ => false

/-- Modelled from the spec: `is_number(PrimitiveTokenType)`, whose definition is
absent from src/.  Spec §4.4: "Numeric tokens parse via their declared base" — the
five numeric kinds. -/
def isNumberTokenType : PrimitiveTokenType → Bool
  | .IntNumber | .RealNumber | .BinaryNumber | .OctalNumber | .HexNumber => true
  | _ => false

/-! ## Errors

One constructor per `throw` site the claims can reach; each carries the data the
C++ message interpolates. -/

inductive Err : Type where
  /-- primitive_tokenizer::tokenize: "Syntax Error: Unmatched open bracket!" -/
  | unmatchedOpenBracket
  /-- primitive_tokenizer::tokenize: "Syntax Error: Unmatched close bracket!" -/
  | unmatchedCloseBracket
  /-- primitive_tokenizer::getNextPrimitiveFrom: unknown operator character. -/
  | unknownOperatorChar (c : Char)
  /-- to_rpn: "Encountered an unmatched closing parenthesis!" -/
  | unmatchedClosingParen
  /-- to_rpn: "Mismatched parentheses!" -/
  | mismatchedParens
  /-- to_rpn: "Mismatched parentheses or comma found outside function call!" -/
  | commaOutsideFunctionCall
  /-- to_rpn: "Function NAME expects E parameters but A were provided!" -/
  | arityMismatch (name : List Char) (expected actual : Nat)
  /-- to_rpn: "Token type T is not a recognized operator!" -/
  | unrecognizedOperator (t : PrimitiveTokenType)
  /-- to_rpn / evaluate_rpn: FunctionMap::get returned nullptr (dereferenced). -/
  | unknownFunction (name : List Char)
  /-- evaluate_rpn: "Variable NAME is undefined!" -/
  | undefinedVariable (name : List Char)
  /-- evaluate_rpn: "Not enough operands for ... operator ..." -/
  | notEnoughOperands (t : PrimitiveTokenType)
  /-- evaluate_rpn: "Function NAME takes N operands, but only M were provided!" -/
  | notEnoughFunctionOperands (name : List Char) (expected actual : Nat)
  /-- func::invoke: "Function called with the incorrect number of arguments!" -/
  | invokeArityMismatch (expected actual : Nat)
  /-- evaluate_rpn: "Cannot divide by zero!" -/
  | divisionByZero
  /-- evaluate_rpn: "Operator ! (Factorial) requires a positive integer!" -/
  | factorialDomain
  /-- Number.hpp bitwise operators: "requires integral types, but the ... operand was ..." -/
  | nonIntegralOperand
  /-- Number::cast_to: precision_exception. -/
  | precisionLoss
  /-- evaluate_rpn: "Operator T is not implemented yet." -/
  | operatorNotImplemented (t : PrimitiveTokenType)
  /-- evaluate_rpn: "Expression evaluated to R, but there were N unmatched operands" -/
  | unmatchedOperands (count : Nat)
  /-- evaluate_rpn: "No operators were specified, but the expression contained N operands" -/
  | operandsWithoutOperators (count : Nat)
  /-- evaluate_rpn: "Invalid expression! (No operands)" -/
  | noOperands
  /-- primitiveToNumber: unparseable digit string (the multiprecision constructors throw). -/
  | badNumber (text : List Char)
  /-- primitiveToNumber: "does not support converting type T to Number!" -/
  | primitiveToNumberUnsupported (t : PrimitiveTokenType)
  /-- baseconv: float-to-base / float-from-base rejections. -/
  | floatBaseConversion
  /-- External-collaborator behavior the spec leaves abstract (spec §1, §6): the
  math-function catalog beyond `pow`'s integral path, and boost behavior on
  inputs no claim reaches. -/
  | unmodelledExternal
deriving DecidableEq, Repr

/-! ## Primitive tokenizer — src/libcalc/include/tokenizer/primitive_tokenizer.hpp -/

/-- `findFirstNonAdjacentOrNotOfType(start, Alpha, Underscore)` recast on lists:
collect the lexemes after the first one while they are `Alpha`/`Underscore` and
adjacent to their predecessor; return (collected run tail, remainder). -/
def alphaRunTail : Lexeme → List Lexeme → List Lexeme × List Lexeme
  | _, [] => ([], [])
  | prev, nx :: rest =>
    if (nx.type = LexemeType.Alpha || nx.type = LexemeType.Underscore) && nx.isAdjacentTo prev then
      let r := alphaRunTail nx rest
      (nx :: r.1, r.2)
    else ([], nx :: rest)

/-- `primitive_tokenizer::getNextPrimitiveFrom`: turn the current lexeme `lex`
(with `rest` the lexemes after it) into one primitive token, given the previously
emitted primitive.  Returns the primitive and the remaining lexemes (the C++
advances the shared iterator for multi-lexeme tokens).  `caretIsExponent` is the
constructor flag of the tokenizer. -/
def getNextPrimitiveFrom (lex : Lexeme) (rest : List Lexeme)
    (previousPrimitive : Option Primitive) (caretIsExponent : Bool) :
    Except Err (Primitive × List Lexeme) :=
  match lex.type with
  | .Semicolon => .ok (⟨.Separator, lex.pos, lex.text⟩, rest)
  | .Equal =>
    match rest with
    | nx :: rest2 =>
      if nx.type = LexemeType.Equal && lex.isAdjacentTo nx then
        .ok (combine2 .Equal lex nx, rest2)
      else .ok (⟨.Setter, lex.pos, lex.text⟩, rest)
    | [] => .ok (⟨.Setter, lex.pos, lex.text⟩, rest)
  | .Colon => .ok (⟨.Setter, lex.pos, lex.text⟩, rest)
  | .Comma => .ok (⟨.TermSeparator, lex.pos, lex.text⟩, rest)
  | .Operator =>
    match lex.text.head? with
    | some '+' => .ok (⟨.Add, lex.pos, lex.text⟩, rest)
    | some '-' =>
      match rest with
      | nx :: _ =>
        if (match previousPrimitive with
            | none => true
            | some p => !evaluatesToNumber p.type || p.type = PrimitiveTokenType.ExpressionOpen)
            && lexEvaluatesToNumber nx.type then
          .ok (⟨.Negate, lex.pos, lex.text⟩, rest)
        else .ok (⟨.Subtract, lex.pos, lex.text⟩, rest)
      | [] => .ok (⟨.Subtract, lex.pos, lex.text⟩, rest)
    | some '*' => .ok (⟨.Multiply, lex.pos, lex.text⟩, rest)
    | some '/' => .ok (⟨.Divide, lex.pos, lex.text⟩, rest)
    | some '%' => .ok (⟨.Modulo, lex.pos, lex.text⟩, rest)
    | some '!' =>
      match rest with
      | nx :: rest2 =>
        if lex.isAdjacentTo nx && nx.type = LexemeType.Equal then
          .ok (combine2 .NotEqual lex nx, rest2)
        else if (match previousPrimitive with
                 | some p => lex.isAdjacentTo p && evaluatesToNumber p.type
                 | none => false) then
          .ok (⟨.Factorial, lex.pos, lex.text⟩, rest)
        else .ok (⟨.LogicalNOT, lex.pos, lex.text⟩, rest)
      | [] =>
        if (match previousPrimitive with
            | some p => lex.isAdjacentTo p && evaluatesToNumber p.type
            | none => false) then
          .ok (⟨.Factorial, lex.pos, lex.text⟩, rest)
        else .ok (⟨.LogicalNOT, lex.pos, lex.text⟩, rest)
    | some '|' =>
      match rest with
      | nx :: rest2 =>
        if lex.isAdjacentTo nx && nx.type = LexemeType.Operator && nx.text = ['|'] then
          .ok (combine2 .LogicalOR lex nx, rest2)
        else .ok (⟨.BitOR, lex.pos, lex.text⟩, rest)
      | [] => .ok (⟨.BitOR, lex.pos, lex.text⟩, rest)
    | some '&' =>
      match rest with
      | nx :: rest2 =>
        if lex.isAdjacentTo nx && nx.type = LexemeType.Operator && nx.text = ['&'] then
          .ok (combine2 .LogicalAND lex nx, rest2)
        else .ok (⟨.BitAND, lex.pos, lex.text⟩, rest)
      | [] => .ok (⟨.BitAND, lex.pos, lex.text⟩, rest)
    | some '^' =>
      .ok (⟨if caretIsExponent then .Exponent else .BitXOR, lex.pos, lex.text⟩, rest)
    | some '~' => .ok (⟨.BitNOT, lex.pos, lex.text⟩, rest)
    | some c => .error (.unknownOperatorChar c)
    | none => .error (.unknownOperatorChar (Char.ofNat 0))
  | .AngleBracketOpen =>
    match rest with
    | nx :: rest2 =>
      if lex.isAdjacentTo nx && nx.type = LexemeType.AngleBracketOpen then
        .ok (combine2 .BitshiftLeft lex nx, rest2)
      else if lex.isAdjacentTo nx && nx.type = LexemeType.Equal then
        .ok (combine2 .LessOrEqual lex nx, rest2)
      else .ok (⟨.LessThan, lex.pos, lex.text⟩, rest)
    | [] => .ok (⟨.LessThan, lex.pos, lex.text⟩, rest)
  | .AngleBracketClose =>
    match rest with
    | nx :: rest2 =>
      if lex.isAdjacentTo nx && nx.type = LexemeType.AngleBracketClose then
        .ok (combine2 .BitshiftRight lex nx, rest2)
      else if lex.isAdjacentTo nx && nx.type = LexemeType.Equal then
        .ok (combine2 .GreaterOrEqual lex nx, rest2)
      else .ok (⟨.GreaterThan, lex.pos, lex.text⟩, rest)
    | [] => .ok (⟨.GreaterThan, lex.pos, lex.text⟩, rest)
  | .SquareBracketOpen => .ok (⟨.ArrayOpen, lex.pos, lex.text⟩, rest)
  | .SquareBracketClose => .ok (⟨.ArrayClose, lex.pos, lex.text⟩, rest)
  | .BinaryNumber => .ok (⟨.BinaryNumber, lex.pos, lex.text⟩, rest)
  | .OctalNumber => .ok (⟨.OctalNumber, lex.pos, lex.text⟩, rest)
  | .HexNumber => .ok (⟨.HexNumber, lex.pos, lex.text⟩, rest)
  | .IntNumber => .ok (⟨.IntNumber, lex.pos, lex.text⟩, rest)
  | .RealNumber => .ok (⟨.RealNumber, lex.pos, lex.text⟩, rest)
  | .Alpha =>
    let run := alphaRunTail lex rest
    let runLexemes := lex :: run.1
    match run.2 with
    | nx :: _ =>
      if nx.type = LexemeType.ParenthesisOpen && isFunction (stringifyTokens runLexemes) then
        .ok (combineTokens .FunctionName runLexemes, run.2)
      else .ok (combineTokens .Variable runLexemes, run.2)
    | [] => .ok (combineTokens .Variable runLexemes, run.2)
  | .ParenthesisOpen => .ok (⟨.ExpressionOpen, lex.pos, lex.text⟩, rest)
  | .ParenthesisClose => .ok (⟨.ExpressionClose, lex.pos, lex.text⟩, rest)
  | _ => .ok (⟨.Unknown, lex.pos, lex.text⟩, rest)

/-- `primitive_tokenizer::findNext(startAt, tokenType)` on indices: the first index
at or after `start` whose lexeme has the given type, or `lexs.length` (the end). -/
def findNextIdx (lexs : List Lexeme) (start : Nat) (t : LexemeType) : Nat :=
  match (lexs.drop start).findIdx? (fun l => l.type = t) with
  | some k => start + k
  | none => lexs.length

/-- Scan loop of `primitive_tokenizer::findPairClose` specialized (as at its call
site) to parentheses: walks a segment carrying the absolute index and the depth,
returning the index of the close bracket that brings the depth back to zero. -/
def findPairCloseGo : List Lexeme → Nat → Int → Option Nat
  | [], _, _ => none
  | l :: rest, i, depth =>
    if l.type = LexemeType.ParenthesisOpen then findPairCloseGo rest (i + 1) (depth + 1)
    else if l.type = LexemeType.ParenthesisClose then
      if depth - 1 = 0 then some i else findPairCloseGo rest (i + 1) (depth - 1)
    else findPairCloseGo rest (i + 1) depth

/-- The bracket-validation pre-pass of `primitive_tokenizer::tokenize`: every
`(` must have a matching `)` before the next `;`, and every `)` must be the
recorded partner of an earlier `(`. -/
def validateBracketsGo (lexs : List Lexeme) :
    List Lexeme → Nat → List (Nat × Nat) → Except Err Unit
  | [], _, _ => .ok ()
  | l :: rest, i, pairs =>
    if l.type = LexemeType.ParenthesisOpen then
      let stop := findNextIdx lexs i LexemeType.Semicolon
      let seg := (lexs.drop i).take (stop - i)
      match findPairCloseGo seg i 0 with
      | none => .error .unmatchedOpenBracket
      | some j => validateBracketsGo lexs rest (i + 1) ((i, j) :: pairs)
    else if l.type = LexemeType.ParenthesisClose then
      if pairs.any (fun pr => pr.2 = i) then validateBracketsGo lexs rest (i + 1) pairs
      else .error .unmatchedCloseBracket
    else validateBracketsGo lexs rest (i + 1) pairs

def tokenizeGo (caretIsExponent : Bool) :
    Nat → List Lexeme → Option Primitive → Except Err (List Primitive)
  | 0, _, _ => .ok []
  | _ + 1, [], _ => .ok []
  | fuel + 1, lx :: rest, prev =>
    if lx.type = LexemeType.EOF then .ok []
    else
      match getNextPrimitiveFrom lx rest prev caretIsExponent with
      | .error e => .error e
      | .ok (p, rest2) =>
        match tokenizeGo caretIsExponent fuel rest2 (some p) with
        | .error e => .error e
        | .ok more => .ok (p :: more)

/-- `primitive_tokenizer::tokenize`: validate bracket pairs, then convert the
lexemes into primitives (stopping before the EOF lexeme), each step seeing the
previously emitted primitive. -/
def tokenizePrimitives (caretIsExponent : Bool) (lexs : List Lexeme) :
    Except Err (List Primitive) :=
  if lexs.isEmpty then .ok []
  else
    match validateBracketsGo lexs lexs 0 [] with
    | .error e => .error e
    | .ok _ => tokenizeGo caretIsExponent (lexs.length + 1) lexs none

/-! ## Operator precedence — src/calc/OperatorPrecedence.hpp -/

/-- `OperatorPrecedence::map`: the static precedence table (higher binds tighter). -/
def precedenceMap : PrimitiveTokenType → Option Nat
  | .Factorial => some 6
  | .FunctionName => some 6
  | .Exponent => some 5
  | .Negate => some 4
  | .Multiply => some 3
  | .Divide => some 3
  | .Modulo => some 3
  | .Add => some 2
  | .Subtract => some 2
  | .BitshiftLeft => some 3
  | .BitshiftRight => some 3
  | .BitNOT => some 2
  | .BitAND => some 1
  | .BitOR => some 1
  | .BitXOR => some 1
  | .LogicalNOT => some 2
  | .Equal => some 1
  | .NotEqual => some 1
  | .LessThan => some 1
  | .LessOrEqual => some 1
  | .GreaterThan => some 1
  | .GreaterOrEqual => some 1
  | .LogicalOR => some 0
  | .LogicalAND => some 0
  | _ => none

/-- `OperatorPrecedence::Get(opType)` with the default `def = 0`. -/
def precedenceGet0 (t : PrimitiveTokenType) : Nat :=
  (precedenceMap t).getD 0

/-! ## Shunting-yard — src/calc/to_rpn.hpp -/

/-- The function-arity lookahead of `to_rpn` (the `FunctionName` case): starting at
the `FunctionName` token itself, track parenthesis depth; a bracketed subexpression
opening at depth 2 counts one parameter, and any token at depth 1 that
`evaluates_to_number` counts one parameter; stop when the depth returns to 0.
The C++ counter `depth` is `unsigned`; it is embedded as `ℤ`. -/
def countFunctionParams : List Primitive → Int → Nat → Nat
  | [], _, count => count
  | t :: rest, depth, count =>
    match t.type with
    | .ExpressionOpen =>
      countFunctionParams rest (depth + 1) (if depth + 1 = 2 then count + 1 else count)
    | .ExpressionClose =>
      if depth - 1 = 0 then count else countFunctionParams rest (depth - 1) count
    | _ =>
      countFunctionParams rest depth
        (if depth = 1 && evaluatesToNumber t.type then count + 1 else count)

/-- The `ExpressionClose` pop loop of `to_rpn`: pop operators to the output until
the first `ExpressionOpen` (discarded).  Returns (popped operators, stack below the
open).  Errors mirror the two throw sites. -/
def popUntilOpen : List Primitive → Except Err (List Primitive × List Primitive)
  | [] => .error .mismatchedParens
  | op :: stack2 =>
    if op.type = PrimitiveTokenType.ExpressionOpen then .ok ([], stack2)
    else
      match stack2 with
      | [] => .error .unmatchedClosingParen
      | _ =>
        match popUntilOpen stack2 with
        | .error e => .error e
        | .ok (ops, stack3) => .ok (op :: ops, stack3)

/-- The `TermSeparator` pop loop of `to_rpn`: pop operators to the output down to
(not past) the nearest `ExpressionOpen`.  Returns (popped operators, rest of stack). -/
def popToOpen : List Primitive → List Primitive × List Primitive
  | [] => ([], [])
  | op :: stack2 =>
    if op.type = PrimitiveTokenType.ExpressionOpen then ([], op :: stack2)
    else
      let r := popToOpen stack2
      (op :: r.1, r.2)

/-- The operator pop loop of `to_rpn`'s default case: pop every stack operator with
precedence ≥ the incoming precedence, stopping at an `ExpressionOpen`. -/
def popGePrecedence (tknPrecedence : Nat) : List Primitive → List Primitive × List Primitive
  | [] => ([], [])
  | op :: stack2 =>
    if op.type ≠ PrimitiveTokenType.ExpressionOpen && precedenceGet0 op.type ≥ tknPrecedence then
      let r := popGePrecedence tknPrecedence stack2
      (op :: r.1, r.2)
    else ([], op :: stack2)

def toRpnGo : List Primitive → List Primitive → List Primitive → Except Err (List Primitive)
  | [], operators, result => .ok (result ++ operators)
  | tkn :: rest, operators, result =>
    match tkn.type with
    | .BinaryNumber | .OctalNumber | .HexNumber | .IntNumber | .RealNumber | .Variable =>
      toRpnGo rest operators (result ++ [tkn])
    | .ExpressionOpen => toRpnGo rest (tkn :: operators) result
    | .ExpressionClose =>
      match popUntilOpen operators with
      | .error e => .error e
      | .ok (ops, operators2) =>
        match operators2 with
        | f :: operators3 =>
          if f.type = PrimitiveTokenType.FunctionName then
            toRpnGo rest operators3 (result ++ ops ++ [f])
          else toRpnGo rest operators2 (result ++ ops)
        | [] => toRpnGo rest operators2 (result ++ ops)
    | .TermSeparator =>
      let r := popToOpen operators
      match r.2 with
      | op :: _ =>
        if op.type = PrimitiveTokenType.ExpressionOpen then
          toRpnGo rest r.2 (result ++ r.1)
        else .error .commaOutsideFunctionCall
      | [] => .error .commaOutsideFunctionCall
    | .FunctionName =>
      match getParamsCount tkn.text with
      | none => .error (.unknownFunction tkn.text)
      | some paramsCount =>
        let count := countFunctionParams (tkn :: rest) 0 0
        if count ≠ paramsCount then .error (.arityMismatch tkn.text paramsCount count)
        else
          match precedenceMap tkn.type with
          | none => .error (.unrecognizedOperator tkn.type)
          | some tknPrecedence =>
            let r := popGePrecedence tknPrecedence operators
            toRpnGo rest (tkn :: r.2) (result ++ r.1)
    | _ =>
      match precedenceMap tkn.type with
      | none => .error (.unrecognizedOperator tkn.type)
      | some tknPrecedence =>
        let r := popGePrecedence tknPrecedence operators
        toRpnGo rest (tkn :: r.2) (result ++ r.1)

/-- `to_rpn` of src/calc/to_rpn.hpp: convert a primitive-token sequence to reverse
polish notation with an operator stack, flushing the remaining stack at the end. -/
def toRpn (primitives : List Primitive) : Except Err (List Primitive) :=
  toRpnGo primitives [] []

/-! ## Number — src/libcalc/include/Number.hpp

`cpp_int` is `ℤ`; `cpp_dec_float_100` is `ℚ` (exact on every value the claims
exercise).  `static_cast<int_t>(real)` truncates toward zero; `trunc(v) == v` is
the normalization test of the floating-point constructors. -/

inductive Number : Type where
  | int (z : ℤ)
  | real (q : ℚ)
deriving DecidableEq, Repr

/-- `boost::multiprecision::trunc` / `static_cast<int_t>` on the real
representation: truncation toward zero. -/
def ratTrunc (q : ℚ) : ℤ :=
  Int.tdiv q.num q.den

/-- The `Number(real_t)` constructor: store the integer variant when
`trunc(value) == value`, else the real variant. -/
def Number.fromRat (q : ℚ) : Number :=
  if (ratTrunc q : ℚ) = q then .int (ratTrunc q) else .real q

/-- `Number::is_integer`. -/
def Number.isInteger : Number → Bool
  | .int _ => true
  | .real _ => false

/-- `Number::is_real`. -/
def Number.isReal : Number → Bool
  | .int _ => false
  | .real _ => true

/-- `Number::has_integral_value`: true for the integer variant, and for a real
whose truncation equals itself.  (The C++ also returns false for non-finite or
astronomically large reals whose truncation overflows; `ℚ` has no such values.) -/
def Number.hasIntegralValue : Number → Bool
  | .int _ => true
  | .real q => (ratTrunc q : ℚ) = q

/-- `Number::is_zero`. -/
def Number.isZero : Number → Bool
  | .int z => z = 0
  | .real q => q = 0

/-- `Number::is_positive` (strictly greater than zero). -/
def Number.isPositive : Number → Bool
  | .int z => 0 < z
  | .real q => 0 < q

/-- `cast_to_<real_t>`: the promoting cast. -/
def Number.toRat : Number → ℚ
  | .int z => z
  | .real q => q

/-- The unchecked `cast_to_<int_t>`: truncating cast. -/
def Number.truncToInt : Number → ℤ
  | .int z => z
  | .real q => ratTrunc q

/-- `Number::cast_to<int_t>` with the default `NUMBER_THROW_ON_UNSAFE_CAST = true`:
`can_fit_value<int_t>()` is `is_integer() || has_integral_value()`; a genuinely
fractional value raises a precision_exception. -/
def Number.castToInt : Number → Except Err ℤ
  | .int z => .ok z
  | .real q =>
    if (ratTrunc q : ℚ) = q then .ok (ratTrunc q) else .error .precisionLoss

/-- `operator+`: same variant stays in that representation (the real-real result
goes through the normalizing constructor); mixed variants promote to real. -/
def Number.add : Number → Number → Number
  | .int a, .int b => .int (a + b)
  | .real a, .real b => Number.fromRat (a + b)
  | a, b => Number.fromRat (a.toRat + b.toRat)

/-- `operator-` (binary). -/
def Number.sub : Number → Number → Number
  | .int a, .int b => .int (a - b)
  | .real a, .real b => Number.fromRat (a - b)
  | a, b => Number.fromRat (a.toRat - b.toRat)

/-- `operator*`. -/
def Number.mul : Number → Number → Number
  | .int a, .int b => .int (a * b)
  | .real a, .real b => Number.fromRat (a * b)
  | a, b => Number.fromRat (a.toRat * b.toRat)

/-- `operator/`: integer division (`cpp_int` truncates toward zero) for two
integers; real division otherwise.  Division by zero is guarded at the call sites
in the evaluator. -/
def Number.div : Number → Number → Number
  | .int a, .int b => .int (Int.tdiv a b)
  | .real a, .real b => Number.fromRat (a / b)
  | a, b => Number.fromRat (a.toRat / b.toRat)

/-- `boost::multiprecision::fmod` on the rational embedding:
`fmod(x, y) = x - trunc(x / y) * y`. -/
def ratFmod (x y : ℚ) : ℚ :=
  x - (ratTrunc (x / y) : ℚ) * y

/-- `operator%`: `cpp_int` remainder (sign follows the dividend) for two integers;
floating `fmod` otherwise. -/
def Number.mod : Number → Number → Number
  | .int a, .int b => .int (Int.tmod a b)
  | .real a, .real b => Number.fromRat (ratFmod a b)
  | a, b => Number.fromRat (ratFmod a.toRat b.toRat)

/-- Unary `operator-` (negation; the result goes through the constructor of its
variant). -/
def Number.negate : Number → Number
  | .int z => .int (-z)
  | .real q => Number.fromRat (-q)

/-- `operator==`: same-variant comparison, mixed variants compare as reals. -/
def Number.beq : Number → Number → Bool
  | .int a, .int b => a = b
  | .real a, .real b => a = b
  | a, b => a.toRat = b.toRat

/-- `operator<`. -/
def Number.blt : Number → Number → Bool
  | .int a, .int b => a < b
  | .real a, .real b => a < b
  | a, b => a.toRat < b.toRat

/-- `operator<=`. -/
def Number.ble : Number → Number → Bool
  | .int a, .int b => a ≤ b
  | .real a, .real b => a ≤ b
  | a, b => a.toRat ≤ b.toRat

/-- `Number(bool)`: booleans become the integer 0/1. -/
def Number.ofBool (b : Bool) : Number :=
  .int (if b then 1 else 0)

/-- The bitwise binary operators of Number.hpp share this shape: both operands must
`has_integral_value()` (else a domain error naming the offending side), both are
coerced to the integer representation, and the integer operation is applied. -/
def Number.bitBinop (f : ℤ → ℤ → ℤ) (l r : Number) : Except Err Number :=
  if !l.hasIntegralValue then .error .nonIntegralOperand
  else if !r.hasIntegralValue then .error .nonIntegralOperand
  else .ok (.int (f l.truncToInt r.truncToInt))

/-- `operator~` (bitwise NOT): requires an integral value; `cpp_int` complement is
the two's-complement `-n - 1`. -/
def Number.bitNot (n : Number) : Except Err Number :=
  if !n.hasIntegralValue then .error .nonIntegralOperand
  else .ok (.int (-n.truncToInt - 1))

/-- The shift operators: integral operands required; the multiprecision shift
rejects negative shift counts (external boost behavior, outside every claim). -/
def Number.shift (left : Bool) (l r : Number) : Except Err Number :=
  if !l.hasIntegralValue then .error .nonIntegralOperand
  else if !r.hasIntegralValue then .error .nonIntegralOperand
  else
    let k := r.truncToInt
    if k < 0 then .error .unmodelledExternal
    else if left then .ok (.int (l.truncToInt * 2 ^ k.toNat))
    else .ok (.int (l.truncToInt / 2 ^ k.toNat))

/-- The loop of `factorial` in src/libcalc/include/intmath.hpp:
`result = 1; for (i = n; i > 1; --i) result *= i`. -/
def factorialGo : Nat → ℤ
  | 0 => 1
  | 1 => 1
  | k + 2 => (k + 2) * factorialGo (k + 1)

/-- `calc::factorial` applied to a non-negative `cpp_int` (the evaluator's
Factorial case rejects negatives before the call, so the function's own
negative-input throw is unreachable from the evaluator). -/
def intFactorial (n : ℤ) : ℤ :=
  factorialGo n.toNat

/-- `calc::pow` of src/libcalc/include/Number.hpp: two integral operands with a
non-negative exponent use exact integer exponentiation.  The remaining paths
(fractional operands, negative exponents) delegate to boost multiprecision pow —
an external collaborator the spec keeps abstract (spec §1), embedded as
`unmodelledExternal`. -/
def powNumber (base exp : Number) : Except Err Number :=
  if base.hasIntegralValue && exp.hasIntegralValue then
    let e := exp.truncToInt
    if 0 ≤ e then .ok (.int (base.truncToInt ^ e.toNat))
    else .error .unmodelledExternal
  else .error .unmodelledExternal

/-- `FunctionMap::invoke` via `func::invoke`: check the argument count, then apply
the bound function.  Modelled from the spec: the concrete catalog of bound math
functions is an external collaborator (spec §1, §6) beyond the lookup/invoke
interface; only `pow`, whose definition is in src/libcalc/include/Number.hpp and
which the claims exercise, is embedded concretely. -/
def invokeFunction (name : List Char) (args : List Number) : Except Err Number :=
  match getParamsCount name with
  | none => .error (.unknownFunction name)
  | some n =>
    if args.length ≠ n then .error (.invokeArityMismatch n args.length)
    else if name = "pow".data then
      match args with
      | [a, b] => powNumber a b
      | _ => .error .unmodelledExternal
    else .error .unmodelledExternal

/-! ## Base conversion — src/libcalc/include/baseconv.h and the numeric-literal
parsing of src/libcalc/include/evaluate_rpn.hpp -/

/-- `str::stdpred::isspace`. -/
def isSpaceChar (c : Char) : Bool :=
  isWsChar c || c = (Char.ofNat 12)

/-- Digit value in a given base (0-9, then letters in either case). -/
def digitValue (c : Char) : Option Nat :=
  if isDigitChar c then some (c.toNat - '0'.toNat)
  else if 'a' ≤ c && c ≤ 'z' then some (c.toNat - 'a'.toNat + 10)
  else if 'A' ≤ c && c ≤ 'Z' then some (c.toNat - 'A'.toNat + 10)
  else none

/-- Positional digit-string accumulation.  Modelled from the spec: `bisc::ston`
(307lib, not under src/) reads a digit string in the given base (spec §4.4
"Numeric tokens parse via their declared base"); an invalid digit is an error
(the multiprecision constructors throw on malformed input, spec §4.1). -/
def digitsToNat (base : Nat) : List Char → Option Nat → Option Nat
  | _, none => none
  | [], acc => acc
  | c :: rest, some acc =>
    match digitValue c with
    | some v => if v < base then digitsToNat base rest (some (acc * base + v)) else none
    | none => none

/-- Parse an unsigned decimal digit run (the `cpp_int{string}` constructor as
exercised by the lexer's Int lexemes; anything else throws).  A multi-digit
string with a leading '0' is rejected: the boost constructor reads "0" as an
octal prefix, and the only Int lexemes with a leading zero contain a digit ≥ 8
(otherwise the lexer classifies them Octal), which is invalid in octal. -/
def parseDecInt (cs : List Char) : Option ℤ :=
  if cs.isEmpty then none
  else if cs.head? = some '0' && cs.length ≠ 1 then none
  else (digitsToNat 10 cs (some 0)).map Int.ofNat

/-- Parse a decimal real `intpart.fracpart` (the `cpp_dec_float_100{string}`
constructor as exercised by Real lexemes; a stray comma throws). -/
def parseDecReal (cs : List Char) : Option ℚ :=
  let ip := cs.takeWhile (fun c => c ≠ '.')
  let rest := cs.dropWhile (fun c => c ≠ '.')
  match rest with
  | '.' :: fp =>
    match digitsToNat 10 ip (some 0), digitsToNat 10 fp (some 0) with
    | some i, some f => some ((i : ℚ) + (f : ℚ) / ((10 : ℚ) ^ fp.length))
    | _, _ => none
  | _ => (digitsToNat 10 cs (some 0)).map (fun n => (n : ℚ))

/-- `calc::from_base` of src/libcalc/include/baseconv.h: base 10 chooses the
integer or real representation by the presence of a decimal point (each through
the corresponding Number constructor); other bases reject decimal points and
read the digit string via `bisc::ston`. -/
def fromBase (cs : List Char) (base : Nat) : Except Err Number :=
  if base = 10 then
    if cs.contains '.' then
      match parseDecReal cs with
      | some q => .ok (Number.fromRat q)
      | none => .error (.badNumber cs)
    else
      match parseDecInt cs with
      | some z => .ok (.int z)
      | none => .error (.badNumber cs)
  else if cs.contains '.' then .error .floatBaseConversion
  else
    match digitsToNat base cs (some 0) with
    | some n => .ok (.int (n : ℤ))
    | none => .error (.badNumber cs)

/-- The character for one digit value (0-9, then uppercase letters). -/
def digitChar (d : Nat) : Char :=
  if d < 10 then Char.ofNat ('0'.toNat + d) else Char.ofNat ('A'.toNat + (d - 10))

/-- Little-endian digit expansion of a positive natural. -/
def natDigitsRev (base : Nat) : Nat → Nat → List Char
  | 0, _ => []
  | fuel + 1, n =>
    if n = 0 then []
    else digitChar (n % base) :: natDigitsRev base fuel (n / base)

/-- Modelled from the spec: `bisc::ntos` (307lib, not under src/) writes the
positional digit string of an integer in the given base (spec §4.5 delegates base
formatting to this helper); a negative value gets a leading minus sign. -/
def ntos (z : ℤ) (base : Nat) : List Char :=
  if z < 0 then '-' :: (natDigitsRev base z.natAbs z.natAbs).reverse
  else (natDigitsRev base z.toNat z.toNat).reverse

/-- `calc::to_base` of src/libcalc/include/baseconv.h: rejects non-integral
values, returns "0" for zero, and otherwise formats via `bisc::ntos` after the
checked integer cast. -/
def toBase (n : Number) (base : Nat) : Except Err (List Char) :=
  if !n.hasIntegralValue then .error .floatBaseConversion
  else if n.isZero then .ok ['0']
  else
    match n.castToInt with
    | .error e => .error e
    | .ok z => .ok (ntos z base)

/-- `num_to_bin` of src/calc/calc.cpp: binary formatting with the "0b" prefix. -/
def numToBin (n : Number) : Except Err (List Char) :=
  if !n.hasIntegralValue then .error .floatBaseConversion
  else
    match toBase n 2 with
    | .error e => .error e
    | .ok s => .ok ('0' :: 'b' :: s)

/-! ## RPN evaluator — src/libcalc/include/evaluate_rpn.hpp -/

/-- `stripWhitespace` + underscore removal of `primitiveToNumber`. -/
def stripNumericSeparators (cs : List Char) : List Char :=
  cs.filter (fun c => !(isSpaceChar c || c = '_'))

/-- `primitiveToNumber` of src/libcalc/include/evaluate_rpn.hpp: strip whitespace
and underscores, strip the "0b"/"0x" prefixes, and convert via the declared base. -/
def primitiveToNumber (p : Primitive) : Except Err Number :=
  let text := stripNumericSeparators p.text
  match p.type with
  | .BinaryNumber =>
    fromBase (if text.take 2 = ['0', 'b'] then text.drop 2 else text) 2
  | .OctalNumber => fromBase text 8
  | .HexNumber =>
    fromBase (if text.take 2 = ['0', 'x'] then text.drop 2 else text) 16
  | .IntNumber => fromBase text 10
  | .RealNumber => fromBase text 10
  | t => .error (.primitiveToNumberUnsupported t)

/-- The variable table (spec §3: name → Number).  `std::map` is embedded as an
association list: lookup takes the most recent binding. -/
abbrev VarMap := List (List Char × Number)

/-- `VarMap::isDefined` / `operator[]` on a defined name. -/
def lookupVar (m : VarMap) (k : List Char) : Option Number :=
  (m.find? (fun p => p.1 = k)).map Prod.snd

/-- `variables[varName] = result` of src/calc/calc.cpp. -/
def setVar (m : VarMap) (k : List Char) (v : Number) : VarMap :=
  (k, v) :: m

/-- `VarMap::erase`. -/
def eraseVar (m : VarMap) (k : List Char) : VarMap :=
  m.filter (fun p => p.1 ≠ k)

/-- One iteration of the `evaluate_rpn` loop: consume one RPN token against the
operand stack.  Returns the new stack and whether an operation was performed
(the `atLeastOneOperation` flag).  The right operand of a binary operator is
popped first. -/
def evalStep (vars : VarMap) (stack : List Number) (tkn : Primitive) :
    Except Err (List Number × Bool) :=
  if isNumberTokenType tkn.type then
    match primitiveToNumber tkn with
    | .error e => .error e
    | .ok n => .ok (n :: stack, false)
  else if tkn.type = PrimitiveTokenType.Variable then
    match lookupVar vars tkn.text with
    | some v => .ok (v :: stack, false)
    | none => .error (.undefinedVariable tkn.text)
  else
    match tkn.type with
    | .FunctionName =>
      match getParamsCount tkn.text with
      | none => .error (.unknownFunction tkn.text)
      | some paramsCount =>
        if stack.length < paramsCount then
          .error (.notEnoughFunctionOperands tkn.text paramsCount stack.length)
        else
          match invokeFunction tkn.text ((stack.take paramsCount).reverse) with
          | .error e => .error e
          | .ok r => .ok (r :: stack.drop paramsCount, true)
    | .Factorial =>
      match stack with
      | operand :: stack2 =>
        if !operand.hasIntegralValue || (!operand.isPositive && !operand.isZero) then
          .error .factorialDomain
        else
          match operand.castToInt with
          | .error e => .error e
          | .ok z => .ok (.int (intFactorial z) :: stack2, true)
      | [] => .error (.notEnoughOperands .Factorial)
    | .Exponent =>
      match stack with
      | right :: left :: stack2 =>
        match invokeFunction "pow".data [left, right] with
        | .error e => .error e
        | .ok r => .ok (r :: stack2, true)
      | _ => .error (.notEnoughOperands .Exponent)
    | .Negate =>
      match stack with
      | operand :: stack2 => .ok (operand.negate :: stack2, true)
      | [] => .error (.notEnoughOperands .Negate)
    | .Add =>
      match stack with
      | right :: left :: stack2 => .ok (left.add right :: stack2, true)
      | _ => .error (.notEnoughOperands .Add)
    | .Subtract =>
      match stack with
      | right :: left :: stack2 => .ok (left.sub right :: stack2, true)
      | _ => .error (.notEnoughOperands .Subtract)
    | .Multiply =>
      match stack with
      | right :: left :: stack2 => .ok (left.mul right :: stack2, true)
      | _ => .error (.notEnoughOperands .Multiply)
    | .Divide =>
      match stack with
      | right :: left :: stack2 =>
        if right.isZero then .error .divisionByZero
        else .ok (left.div right :: stack2, true)
      | _ => .error (.notEnoughOperands .Divide)
    | .Modulo =>
      match stack with
      | right :: left :: stack2 =>
        if right.isZero then .error .divisionByZero
        else .ok (left.mod right :: stack2, true)
      | _ => .error (.notEnoughOperands .Modulo)
    | .BitNOT =>
      match stack with
      | operand :: stack2 =>
        match operand.bitNot with
        | .error e => .error e
        | .ok r => .ok (r :: stack2, true)
      | [] => .error (.notEnoughOperands .BitNOT)
    | .BitOR =>
      match stack with
      | right :: left :: stack2 =>
        match Number.bitBinop Int.lor left right with
        | .error e => .error e
        | .ok r => .ok (r :: stack2, true)
      | _ => .error (.notEnoughOperands .BitOR)
    | .BitAND =>
      match stack with
      | right :: left :: stack2 =>
        match Number.bitBinop Int.land left right with
        | .error e => .error e
        | .ok r => .ok (r :: stack2, true)
      | _ => .error (.notEnoughOperands .BitAND)
    | .BitXOR =>
      match stack with
      | right :: left :: stack2 =>
        match Number.bitBinop Int.xor left right with
        | .error e => .error e
        | .ok r => .ok (r :: stack2, true)
      | _ => .error (.notEnoughOperands .BitXOR)
    | .BitshiftLeft =>
      match stack with
      | right :: left :: stack2 =>
        match Number.shift true left right with
        | .error e => .error e
        | .ok r => .ok (r :: stack2, true)
      | _ => .error (.notEnoughOperands .BitshiftLeft)
    | .BitshiftRight =>
      match stack with
      | right :: left :: stack2 =>
        match Number.shift false left right with
        | .error e => .error e
        | .ok r => .ok (r :: stack2, true)
      | _ => .error (.notEnoughOperands .BitshiftRight)
    | .Equal =>
      match stack with
      | right :: left :: stack2 => .ok (Number.ofBool (left.beq right) :: stack2, true)
      | _ => .error (.notEnoughOperands .Equal)
    | .NotEqual =>
      match stack with
      | right :: left :: stack2 => .ok (Number.ofBool (!left.beq right) :: stack2, true)
      | _ => .error (.notEnoughOperands .NotEqual)
    | .LessThan =>
      match stack with
      | right :: left :: stack2 => .ok (Number.ofBool (left.blt right) :: stack2, true)
      | _ => .error (.notEnoughOperands .LessThan)
    | .LessOrEqual =>
      match stack with
      | right :: left :: stack2 => .ok (Number.ofBool (left.ble right) :: stack2, true)
      | _ => .error (.notEnoughOperands .LessOrEqual)
    | .GreaterThan =>
      match stack with
      | right :: left :: stack2 => .ok (Number.ofBool (right.blt left) :: stack2, true)
      | _ => .error (.notEnoughOperands .GreaterThan)
    | .GreaterOrEqual =>
      match stack with
      | right :: left :: stack2 => .ok (Number.ofBool (right.ble left) :: stack2, true)
      | _ => .error (.notEnoughOperands .GreaterOrEqual)
    | .LogicalNOT =>
      match stack with
      | operand :: stack2 => .ok (Number.ofBool operand.isZero :: stack2, true)
      | [] => .error (.notEnoughOperands .LogicalNOT)
    | .LogicalOR =>
      match stack with
      | right :: left :: stack2 =>
        .ok (Number.ofBool (!left.isZero || !right.isZero) :: stack2, true)
      | _ => .error (.notEnoughOperands .LogicalOR)
    | .LogicalAND =>
      match stack with
      | right :: left :: stack2 =>
        .ok (Number.ofBool (!left.isZero && !right.isZero) :: stack2, true)
      | _ => .error (.notEnoughOperands .LogicalAND)
    | t => .error (.operatorNotImplemented t)

def evalRpnGo (vars : VarMap) :
    List Primitive → List Number → Bool → Except Err (List Number × Bool)
  | [], stack, atLeastOne => .ok (stack, atLeastOne)
  | tkn :: rest, stack, atLeastOne =>
    match evalStep vars stack tkn with
    | .error e => .error e
    | .ok (stack2, opd) => evalRpnGo vars rest stack2 (atLeastOne || opd)

/-- `evaluate_rpn` of src/libcalc/include/evaluate_rpn.hpp: run the stack machine
left to right; exactly one operand must remain. -/
def evaluateRpn (rpn : List Primitive) (vars : VarMap) : Except Err Number :=
  match evalRpnGo vars rpn [] false with
  | .error e => .error e
  | .ok (stack, atLeastOne) =>
    match stack with
    | [] => .error .noOperands
    | [x] => .ok x
    | x :: restStack =>
      if atLeastOne then .error (.unmatchedOperands restStack.length)
      else .error (.operandsWithoutOperators (x :: restStack).length)

/-! ## Per-statement driver — src/calc/calc.cpp -/

/-- `split_vec` of src/calc/helpers/vec_helpers.h on the Separator predicate: the
buffer is emitted (possibly empty) at every separator, and the final buffer only
when non-empty. -/
def splitVecGo : List Primitive → List Primitive → List (List Primitive)
  | [], buf => if buf.isEmpty then [] else [buf]
  | t :: rest, buf =>
    if t.type = PrimitiveTokenType.Separator then buf :: splitVecGo rest []
    else splitVecGo rest (buf ++ [t])

def splitStatements (tokens : List Primitive) : List (List Primitive) :=
  splitVecGo tokens []

/-- One iteration of the statement loop of `main` (src/calc/calc.cpp): the Setter
special case runs before RPN conversion; a successful setter statement stores the
value in the VarMap (producing no output), an empty setter erases the variable,
and any statement failure is reported and evaluation proceeds.  Returns the
updated VarMap and the statement's observable outcome (`none` for setters). -/
def runStatement (vars : VarMap) (stmt : List Primitive) :
    VarMap × Option (Except Err Number) :=
  match stmt with
  | v :: s :: rest =>
    if v.type = PrimitiveTokenType.Variable && s.type = PrimitiveTokenType.Setter then
      match rest with
      | [] => (eraseVar vars v.text, none)
      | _ =>
        match toRpn rest with
        | .error e => (vars, some (.error e))
        | .ok rpn =>
          match evaluateRpn rpn vars with
          | .error e => (vars, some (.error e))
          | .ok val => (setVar vars v.text val, none)
    else
      match toRpn stmt with
      | .error e => (vars, some (.error e))
      | .ok rpn =>
        match evaluateRpn rpn vars with
        | .error e => (vars, some (.error e))
        | .ok val => (vars, some (.ok val))
  | _ =>
    match toRpn stmt with
    | .error e => (vars, some (.error e))
    | .ok rpn =>
      match evaluateRpn rpn vars with
      | .error e => (vars, some (.error e))
      | .ok val => (vars, some (.ok val))

def runSessionGo : List (List Primitive) → VarMap → List (Except Err Number)
  | [], _ => []
  | stmt :: more, vars =>
    let r := runStatement vars stmt
    match r.2 with
    | none => runSessionGo more r.1
    | some out => out :: runSessionGo more r.1

/-- The whole pipeline of src/calc/calc.cpp on one input string with the default
configuration (no `-^` flag, so `caretIsExponent = false`; empty initial VarMap):
lex, tokenize, split on Separator, and run each statement.  A tokenizer error
aborts the whole run (outer `.error`); per-statement failures appear in the
output list. -/
def evaluateString (s : String) : Except Err (List (Except Err Number)) :=
  match tokenizePrimitives false (getLexemes s.data) with
  | .error e => .error e
  | .ok toks => .ok (runSessionGo (splitStatements toks) [])

/-! ## Helper lemmas -/

theorem factorialGo_eq_factorial : ∀ n : ℕ, factorialGo n = (Nat.factorial n : ℤ) := by
  intro n
  induction n with
  | zero => rfl
  | succ k ih =>
    cases k with
    | zero => rfl
    | succ m =>
      have hfac : (m + 1 + 1).factorial = (m + 1 + 1) * (m + 1).factorial :=
        Nat.factorial_succ (m + 1)
      rw [factorialGo, ih, hfac]
      push_cast
      ring

theorem alphaRunTail_append (rest : List Lexeme) :
    ∀ p : Lexeme, (alphaRunTail p rest).1 ++ (alphaRunTail p rest).2 = rest := by
  induction rest with
  | nil => intro p; rfl
  | cons nx rest2 ih =>
    intro p
    by_cases hc : ((nx.type = LexemeType.Alpha || nx.type = LexemeType.Underscore) &&
        nx.isAdjacentTo p) = true
    · simp only [alphaRunTail, if_pos hc, List.cons_append, List.cons.injEq, true_and]
      exact ih nx
    · simp only [alphaRunTail, if_neg hc, List.nil_append]

theorem alphaRunTail_types (rest : List Lexeme) :
    ∀ (p l : Lexeme), l ∈ (alphaRunTail p rest).1 →
      l.type = LexemeType.Alpha ∨ l.type = LexemeType.Underscore := by
  induction rest with
  | nil => intro p l h; exact absurd h (List.not_mem_nil l)
  | cons nx rest2 ih =>
    intro p l h
    by_cases hc : ((nx.type = LexemeType.Alpha || nx.type = LexemeType.Underscore) &&
        nx.isAdjacentTo p) = true
    · rw [alphaRunTail, if_pos hc] at h
      rcases List.mem_cons.mp h with rfl | h2
      · have := (Bool.and_eq_true _ _).mp hc |>.1
        simpa using this
      · exact ih nx l h2
    · rw [alphaRunTail, if_neg hc] at h
      exact absurd h (List.not_mem_nil l)

theorem alphaRunTail_chain (rest : List Lexeme) :
    ∀ p : Lexeme,
      List.Chain' (fun a b => b.isAdjacentTo a = true) (p :: (alphaRunTail p rest).1) := by
  induction rest with
  | nil => intro p; simp [alphaRunTail]
  | cons nx rest2 ih =>
    intro p
    by_cases hc : ((nx.type = LexemeType.Alpha || nx.type = LexemeType.Underscore) &&
        nx.isAdjacentTo p) = true
    · rw [alphaRunTail, if_pos hc]
      rw [List.chain'_cons]
      exact ⟨(Bool.and_eq_true _ _).mp hc |>.2, ih nx⟩
    · rw [alphaRunTail, if_neg hc]
      simp

theorem alphaRunTail_maximal (rest : List Lexeme) :
    ∀ p : Lexeme,
      (alphaRunTail p rest).2 = [] ∨
      ∃ nx rest2, (alphaRunTail p rest).2 = nx :: rest2 ∧
        ¬((nx.type = LexemeType.Alpha ∨ nx.type = LexemeType.Underscore) ∧
          nx.isAdjacentTo ((alphaRunTail p rest).1.getLastD p) = true) := by
  induction rest with
  | nil => intro p; exact Or.inl rfl
  | cons nx rest2 ih =>
    intro p
    by_cases hc : ((nx.type = LexemeType.Alpha || nx.type = LexemeType.Underscore) &&
        nx.isAdjacentTo p) = true
    · rw [alphaRunTail, if_pos hc]
      rcases ih nx with h | ⟨nx2, rest3, heq, hbad⟩
      · exact Or.inl h
      · refine Or.inr ⟨nx2, rest3, heq, ?_⟩
        simpa only [List.getLastD_cons] using hbad
    · rw [alphaRunTail, if_neg hc]
      refine Or.inr ⟨nx, rest2, rfl, ?_⟩
      rintro ⟨h1, h2⟩
      apply hc
      rw [Bool.and_eq_true]
      refine ⟨?_, by simpa using h2⟩
      rcases h1 with h | h <;> simp [h]

/-- The guard condition of one `binaryBody` step. -/
def binStepCond (rest : List Char) : Bool :=
  rest.head? = some '_' && (rest.tail.head? = some '0' || rest.tail.head? = some '1')

theorem binaryBody_step (f : Nat) (cs : List Char) :
    binaryBody (f + 1) cs =
      if binStepCond (cs.dropWhile isBinDigitChar) then
        (cs.takeWhile isBinDigitChar ++
          '_' :: (binaryBody f (cs.dropWhile isBinDigitChar).tail).1,
         (binaryBody f (cs.dropWhile isBinDigitChar).tail).2)
      else (cs.takeWhile isBinDigitChar, cs.dropWhile isBinDigitChar) := by
  rw [binaryBody]
  rfl

theorem binStepCond_tail (rest : List Char) (h : binStepCond rest = true) :
    ∃ d tl2, rest.tail = d :: tl2 ∧ isBinDigitChar d = true := by
  rw [binStepCond, Bool.and_eq_true, Bool.or_eq_true] at h
  obtain ⟨_, h2⟩ := h
  cases htl : rest.tail with
  | nil =>
    rw [htl] at h2
    rcases h2 with h2 | h2 <;> exact Option.noConfusion (of_decide_eq_true h2)
  | cons a b =>
    rw [htl] at h2
    rcases h2 with h2 | h2
    · have ha : a = '0' := by
        have := of_decide_eq_true h2
        simpa using this
      exact ⟨a, b, rfl, by rw [ha]; decide⟩
    · have ha : a = '1' := by
        have := of_decide_eq_true h2
        simpa using this
      exact ⟨a, b, rfl, by rw [ha]; decide⟩

theorem binaryBody_chars :
    ∀ (fuel : Nat) (cs : List Char), ∀ c ∈ (binaryBody fuel cs).1,
      c = '0' ∨ c = '1' ∨ c = '_' := by
  intro fuel
  induction fuel with
  | zero => intro cs c hc; exact absurd hc (List.not_mem_nil c)
  | succ f ih =>
    intro cs c hc
    rw [binaryBody_step] at hc
    have htake : ∀ x ∈ cs.takeWhile isBinDigitChar, x = '0' ∨ x = '1' := by
      intro x hx
      have := List.mem_takeWhile_imp hx
      rcases Bool.or_eq_true _ _ |>.mp this with h | h
      · exact Or.inl (by simpa using h)
      · exact Or.inr (by simpa using h)
    by_cases hcnd : binStepCond (cs.dropWhile isBinDigitChar) = true
    · rw [if_pos hcnd] at hc
      rcases List.mem_append.mp hc with hmem | hmem
      · rcases htake c hmem with h | h
        · exact Or.inl h
        · exact Or.inr (Or.inl h)
      · rcases List.mem_cons.mp hmem with rfl | hmem2
        · exact Or.inr (Or.inr rfl)
        · exact ih _ c hmem2
    · rw [if_neg hcnd] at hc
      rcases htake c hc with h | h
      · exact Or.inl h
      · exact Or.inr (Or.inl h)

theorem binaryBody_head (f : Nat) (d : Char) (rest : List Char)
    (hf : 0 < f) (hd : isBinDigitChar d = true) :
    ∃ tl, (binaryBody f (d :: rest)).1 = d :: tl := by
  cases f with
  | zero => omega
  | succ f2 =>
    rw [binaryBody_step]
    rw [List.takeWhile_cons_of_pos hd, List.dropWhile_cons_of_pos hd]
    by_cases hcnd : binStepCond (rest.dropWhile isBinDigitChar) = true
    · rw [if_pos hcnd]
      exact ⟨_, by rw [List.cons_append]⟩
    · rw [if_neg hcnd]
      exact ⟨_, rfl⟩

theorem underscore_decomp_append (P : List Char → Prop) (ds : List Char)
    (hds : ∀ c ∈ ds, isBinDigitChar c = true) (t : List Char)
    (ht : ∀ pre suf, t = pre ++ '_' :: suf → P suf) :
    ∀ pre suf, ds ++ t = pre ++ '_' :: suf → P suf := by
  induction ds with
  | nil => simpa using ht
  | cons c ds2 ih =>
    intro pre suf heq
    cases pre with
    | nil =>
      simp only [List.nil_append, List.cons_append, List.cons.injEq] at heq
      exfalso
      have := hds c (List.mem_cons_self c ds2)
      rw [heq.1] at this
      simp [isBinDigitChar] at this
    | cons c2 pre2 =>
      simp only [List.cons_append, List.cons.injEq] at heq
      exact ih (fun x hx => hds x (List.mem_cons_of_mem c hx)) pre2 suf heq.2

theorem binaryBody_underscore :
    ∀ (fuel : Nat) (cs : List Char), cs.length < fuel →
      ∀ pre suf, (binaryBody fuel cs).1 = pre ++ '_' :: suf →
        ∃ d suf2, suf = d :: suf2 ∧ isBinDigitChar d = true := by
  intro fuel
  induction fuel with
  | zero => intro cs h; omega
  | succ f ih =>
    intro cs hlen pre suf hbody
    rw [binaryBody_step] at hbody
    have htake : ∀ x ∈ cs.takeWhile isBinDigitChar, isBinDigitChar x = true := by
      intro x hx
      exact List.mem_takeWhile_imp hx
    have hnounder : ∀ pre2 suf2,
        cs.takeWhile isBinDigitChar = pre2 ++ '_' :: suf2 → False := by
      intro pre2 suf2 he
      have := htake '_' (by rw [he]; exact List.mem_append_right _ (List.mem_cons_self _ _))
      simp [isBinDigitChar] at this
    by_cases hcnd : binStepCond (cs.dropWhile isBinDigitChar) = true
    · rw [if_pos hcnd] at hbody
      obtain ⟨d, tl2, htl, hd⟩ := binStepCond_tail _ hcnd
      have hdropne : cs.dropWhile isBinDigitChar ≠ [] := by
        intro he
        rw [he] at hcnd
        exact Bool.noConfusion hcnd
      have hlen2 : (cs.dropWhile isBinDigitChar).tail.length < f := by
        have hlencs : (cs.takeWhile isBinDigitChar).length +
            (cs.dropWhile isBinDigitChar).length = cs.length := by
          rw [← List.length_append, List.takeWhile_append_dropWhile]
        cases hdrop : cs.dropWhile isBinDigitChar with
        | nil => exact absurd hdrop hdropne
        | cons c1 tl =>
          rw [hdrop] at hlencs
          simp only [List.length_cons, List.tail_cons] at hlencs ⊢
          omega
      refine underscore_decomp_append
        (fun sf => ∃ d suf2, sf = d :: suf2 ∧ isBinDigitChar d = true)
        (cs.takeWhile isBinDigitChar) htake _ ?_ pre suf hbody
      intro pre2 suf2 heq2
      cases pre2 with
      | nil =>
        simp only [List.nil_append, List.cons.injEq] at heq2
        have hf1 : 0 < f := by
          rw [htl] at hlen2
          simp only [List.length_cons] at hlen2
          omega
        obtain ⟨tl3, htl3⟩ := binaryBody_head f d tl2 hf1 hd
        rw [← heq2.2, htl]
        exact ⟨d, tl3, htl3, hd⟩
      | cons c3 pre3 =>
        simp only [List.cons_append, List.cons.injEq] at heq2
        exact ih (cs.dropWhile isBinDigitChar).tail hlen2 pre3 suf2 heq2.2
    · rw [if_neg hcnd] at hbody
      exact absurd hbody (fun h => hnounder pre suf h)

/-! ## Claim theorems -/

/-- Claim C1 (confirmed): through the full pipeline (lex, tokenize, to_rpn,
evaluate_rpn) with the default function map and an empty variable map,
"2 + 3 * 4" evaluates to the Number 14 and "(2 + 3) * 4" evaluates to the
Number 20 — multiplication binds tighter than addition and parentheses override
precedence. -/
theorem claim1_precedence_pipeline :
    evaluateString "2 + 3 * 4" = .ok [.ok (Number.int 14)] ∧
    evaluateString "(2 + 3) * 4" = .ok [.ok (Number.int 20)] := by
  constructor <;> decide

/-- Claim C2 (confirmed): a Number constructed from a real value with zero
fractional part is the integer variant; each of the five arithmetic operators on
mixed variants promotes both sides to real and re-normalizes through the
constructor; and the Number built from the real 4.0 is the integer variant and
compares equal to the Number built from the integer 4. -/
theorem claim2_number_normalization :
    (∀ q : ℚ, (ratTrunc q : ℚ) = q → (Number.fromRat q).isInteger = true) ∧
    (∀ (z : ℤ) (q : ℚ),
      Number.add (.int z) (.real q) = Number.fromRat ((z : ℚ) + q) ∧
      Number.add (.real q) (.int z) = Number.fromRat (q + (z : ℚ)) ∧
      Number.sub (.int z) (.real q) = Number.fromRat ((z : ℚ) - q) ∧
      Number.sub (.real q) (.int z) = Number.fromRat (q - (z : ℚ)) ∧
      Number.mul (.int z) (.real q) = Number.fromRat ((z : ℚ) * q) ∧
      Number.mul (.real q) (.int z) = Number.fromRat (q * (z : ℚ)) ∧
      Number.div (.int z) (.real q) = Number.fromRat ((z : ℚ) / q) ∧
      Number.div (.real q) (.int z) = Number.fromRat (q / (z : ℚ)) ∧
      Number.mod (.int z) (.real q) = Number.fromRat (ratFmod (z : ℚ) q) ∧
      Number.mod (.real q) (.int z) = Number.fromRat (ratFmod q (z : ℚ))) ∧
    (Number.fromRat 4 = Number.int 4 ∧
     (Number.fromRat 4).isInteger = true ∧
     Number.beq (Number.fromRat 4) (Number.int 4) = true) := by
  refine ⟨?_, ?_, ?_⟩
  · intro q h
    unfold Number.fromRat
    rw [if_pos h]
    rfl
  · intro z q
    refine ⟨rfl, rfl, rfl, rfl, rfl, rfl, rfl, rfl, rfl, rfl⟩
  · refine ⟨by decide, by decide, by decide⟩

/-- Witness for C2 at the concrete input 4.0. -/
theorem claim2_number_normalization_witness :
    (ratTrunc 4 : ℚ) = 4 ∧ (Number.fromRat 4).isInteger = true :=
  ⟨by decide, claim2_number_normalization.1 4 (by decide)⟩

/-- Claim C3 (confirmed): whenever the evaluator applies Divide or Modulo and the
first-popped (right) operand is zero, the whole RPN evaluation fails with the
division-by-zero error and produces no result; in particular "10 / 0" fails with
exactly that error. -/
theorem claim3_division_by_zero :
    (∀ (vars : VarMap) (tkn : Primitive) (r l : Number) (st : List Number)
       (rest : List Primitive) (b : Bool),
      (tkn.type = PrimitiveTokenType.Divide ∨ tkn.type = PrimitiveTokenType.Modulo) →
      r.isZero = true →
      evalRpnGo vars (tkn :: rest) (r :: l :: st) b = .error .divisionByZero) ∧
    evaluateString "10 / 0" = .ok [.error .divisionByZero] := by
  constructor
  · intro vars tkn r l st rest b hty hz
    rcases hty with h | h <;>
      simp [evalRpnGo, evalStep, h, isNumberTokenType, hz]
  · decide

/-- Witness for C3 at a concrete Divide token and stack. -/
theorem claim3_division_by_zero_witness :
    evalRpnGo [] [⟨PrimitiveTokenType.Divide, 0, ['/']⟩] [Number.int 0, Number.int 10] false =
      .error .divisionByZero :=
  claim3_division_by_zero.1 [] ⟨PrimitiveTokenType.Divide, 0, ['/']⟩ (Number.int 0)
    (Number.int 10) [] [] false (Or.inl rfl) (by decide)

/-- Claim C10 (confirmed): the evaluator's Factorial case fails with the
"requires a positive integer" error whenever the operand lacks an integral value
or is negative, and on a non-negative integer n it pushes the product
1 * 2 * ... * n (with 0! = 1, i.e. n factorial). -/
theorem claim10_factorial :
    (∀ (vars : VarMap) (tkn : Primitive) (x : Number) (st : List Number)
       (rest : List Primitive) (b : Bool),
      tkn.type = PrimitiveTokenType.Factorial →
      (x.hasIntegralValue = false ∨ (x.isPositive = false ∧ x.isZero = false)) →
      evalRpnGo vars (tkn :: rest) (x :: st) b = .error .factorialDomain) ∧
    (∀ (vars : VarMap) (tkn : Primitive) (n : ℤ) (st : List Number),
      tkn.type = PrimitiveTokenType.Factorial →
      0 ≤ n →
      evalStep vars (Number.int n :: st) tkn =
        .ok (Number.int (Nat.factorial n.toNat) :: st, true)) := by
  constructor
  · intro vars tkn x st rest b hty hbad
    have hcond : (!x.hasIntegralValue || (!x.isPositive && !x.isZero)) = true := by
      rcases hbad with h | ⟨h1, h2⟩
      · simp [h]
      · simp [h1, h2]
    simp [evalRpnGo, evalStep, hty, isNumberTokenType, hcond]
  · intro vars tkn n st hty hn
    have hint : (Number.int n).hasIntegralValue = true := rfl
    have hok : (!(Number.int n).hasIntegralValue ||
        (!(Number.int n).isPositive && !(Number.int n).isZero)) = false := by
      simp [Number.hasIntegralValue, Number.isPositive, Number.isZero]
      omega
    simp [evalStep, hty, isNumberTokenType, hok, Number.castToInt, intFactorial,
      factorialGo_eq_factorial]

/-- Witness for C10: a Factorial token applied to the negative integer -3 fails,
and applied to the integer 4 yields 24. -/
theorem claim10_factorial_witness :
    evalRpnGo [] [⟨PrimitiveTokenType.Factorial, 0, ['!']⟩] [Number.int (-3)] false =
      .error .factorialDomain ∧
    evalStep [] [Number.int 4] ⟨PrimitiveTokenType.Factorial, 0, ['!']⟩ =
      .ok ([Number.int 24], true) := by
  constructor
  · exact claim10_factorial.1 [] ⟨PrimitiveTokenType.Factorial, 0, ['!']⟩
      (Number.int (-3)) [] [] false rfl (Or.inr ⟨by decide, by decide⟩)
  · have h := claim10_factorial.2 [] ⟨PrimitiveTokenType.Factorial, 0, ['!']⟩ 4 [] rfl
      (by decide)
    simpa using h

/-- Claim C7 (confirmed): a statement of the form name-setter-expression stores
the expression's evaluated value in the VarMap before the next statement runs
(the session continues with the updated map, and looking the name up in that map
yields the stored value); in particular "a = 5; a + 1" evaluates to 6 in one
session. -/
theorem claim7_session_variable_store :
    (∀ (vars : VarMap) (v s : Primitive) (rest : List Primitive)
       (more : List (List Primitive)) (rpn : List Primitive) (val : Number),
      v.type = PrimitiveTokenType.Variable →
      s.type = PrimitiveTokenType.Setter →
      rest ≠ [] →
      toRpn rest = .ok rpn →
      evaluateRpn rpn vars = .ok val →
      runSessionGo ((v :: s :: rest) :: more) vars =
        runSessionGo more (setVar vars v.text val) ∧
      lookupVar (setVar vars v.text val) v.text = some val) ∧
    evaluateString "a = 5; a + 1" = .ok [.ok (Number.int 6)] := by
  constructor
  · intro vars v s rest more rpn val hv hs hne hrpn heval
    constructor
    · cases rest with
      | nil => exact absurd rfl hne
      | cons a t =>
        simp [runSessionGo, runStatement, hv, hs, hrpn, heval]
    · simp [lookupVar, setVar, List.find?]
  · decide

/-- Witness for C7: storing a = 5 and continuing the session. -/
theorem claim7_session_variable_store_witness :
    runSessionGo [[⟨PrimitiveTokenType.Variable, 0, ['a']⟩, ⟨PrimitiveTokenType.Setter, 2, ['=']⟩,
        ⟨PrimitiveTokenType.IntNumber, 4, ['5']⟩]] [] =
      runSessionGo [] (setVar [] ['a'] (Number.int 5)) ∧
    lookupVar (setVar [] ['a'] (Number.int 5)) ['a'] = some (Number.int 5) :=
  claim7_session_variable_store.1 [] ⟨PrimitiveTokenType.Variable, 0, ['a']⟩
    ⟨PrimitiveTokenType.Setter, 2, ['=']⟩ [⟨PrimitiveTokenType.IntNumber, 4, ['5']⟩] []
    [⟨PrimitiveTokenType.IntNumber, 4, ['5']⟩] (Number.int 5)
    rfl rfl (by decide) (by decide) (by decide)

/-- Claim C5 (confirmed): the tokenizer classifies a '-' operator lexeme as Negate
exactly when (there is no previous primitive, or the previous primitive does not
itself evaluate to a number, or the previous primitive is ExpressionOpen) and the
following lexeme evaluates to a number; in every other case the '-' becomes
Subtract. -/
theorem claim5_negate_disambiguation
    (lex : Lexeme) (rest : List Lexeme) (prev : Option Primitive) (caret : Bool)
    (t : List Char) (hop : lex.type = LexemeType.Operator) (htext : lex.text = '-' :: t) :
    ∃ p : Primitive, getNextPrimitiveFrom lex rest prev caret = .ok (p, rest) ∧
      (p.type = PrimitiveTokenType.Negate ↔
        ((match prev with
          | none => True
          | some pp =>
            evaluatesToNumber pp.type = false ∨ pp.type = PrimitiveTokenType.ExpressionOpen) ∧
         (∃ nx rest2, rest = nx :: rest2 ∧ lexEvaluatesToNumber nx.type = true))) ∧
      (p.type = PrimitiveTokenType.Negate ∨ p.type = PrimitiveTokenType.Subtract) := by
  obtain ⟨ty, pos, tx⟩ := lex
  simp only at hop htext
  subst hop
  subst htext
  cases rest with
  | nil =>
    refine ⟨⟨.Subtract, pos, '-' :: t⟩, rfl, ?_, Or.inr rfl⟩
    simp
  | cons nx rest2 =>
    by_cases hcond : ((match prev with
        | none => true
        | some p => !evaluatesToNumber p.type || p.type = PrimitiveTokenType.ExpressionOpen)
        && lexEvaluatesToNumber nx.type) = true
    · refine ⟨⟨.Negate, pos, '-' :: t⟩, ?_, ?_, Or.inl rfl⟩
      · simp only [getNextPrimitiveFrom, List.head?]
        rw [if_pos hcond]
      · simp only [true_iff]
        rw [Bool.and_eq_true] at hcond
        refine ⟨?_, nx, rest2, rfl, hcond.2⟩
        cases prev with
        | none => trivial
        | some pp =>
          have h := hcond.1
          simp only [Bool.or_eq_true, Bool.not_eq_true', decide_eq_true_eq] at h
          exact h
    · refine ⟨⟨.Subtract, pos, '-' :: t⟩, ?_, ?_, Or.inr rfl⟩
      · simp only [getNextPrimitiveFrom, List.head?]
        rw [if_neg hcond]
      · refine iff_of_false (fun h => PrimitiveTokenType.noConfusion h) ?_
        rintro ⟨h1, nx2, rest3, heq, hnum⟩
        apply hcond
        rw [Bool.and_eq_true]
        obtain ⟨rfl, rfl⟩ : nx2 = nx ∧ rest3 = rest2 := by
          injection heq with e1 e2
          exact ⟨e1.symm, e2.symm⟩
        refine ⟨?_, hnum⟩
        cases prev with
        | none => rfl
        | some pp =>
          simp only [Bool.or_eq_true, Bool.not_eq_true', decide_eq_true_eq]
          exact h1

/-- Witness for C5: at the start of input, a '-' followed by an integer lexeme is
Negate. -/
theorem claim5_negate_disambiguation_witness :
    ∃ p : Primitive,
      getNextPrimitiveFrom ⟨LexemeType.Operator, 0, ['-']⟩ [⟨LexemeType.IntNumber, 1, ['5']⟩]
          none false = .ok (p, [⟨LexemeType.IntNumber, 1, ['5']⟩]) ∧
      (p.type = PrimitiveTokenType.Negate ↔
        (True ∧ (∃ nx rest2, [(⟨LexemeType.IntNumber, 1, ['5']⟩ : Lexeme)] = nx :: rest2 ∧
          lexEvaluatesToNumber nx.type = true))) ∧
      (p.type = PrimitiveTokenType.Negate ∨ p.type = PrimitiveTokenType.Subtract) :=
  claim5_negate_disambiguation ⟨LexemeType.Operator, 0, ['-']⟩
    [⟨LexemeType.IntNumber, 1, ['5']⟩] none false [] rfl rfl

/-- Counterexample to C6 as stated: the adjacent Alpha run spelling "true" does
not become a Boolean token — the tokenizer produces a single Variable token (the
Alpha case of getNextPrimitiveFrom has no boolean-literal branch). -/
theorem claim6_boolean_counterexample :
    tokenizePrimitives false (getLexemes "true".data) =
      .ok [⟨PrimitiveTokenType.Variable, 0, ['t', 'r', 'u', 'e']⟩] ∧
    PrimitiveTokenType.Variable ≠ PrimitiveTokenType.Boolean := by
  constructor
  · decide
  · decide

/-- Claim C6 (corrected): for every Alpha lexeme, the tokenizer collects the
maximal adjacent run of Alpha/Underscore lexemes and produces a single
FunctionName token spanning the run when the first lexeme after the run is a
ParenthesisOpen (adjacent or not) and the run text is a known FunctionMap name;
otherwise it produces a single Variable token spanning the whole run.  The runs
"true" and "false" receive no special Boolean treatment. -/
theorem claim6_alpha_run_amended
    (lex : Lexeme) (rest : List Lexeme) (prev : Option Primitive) (caret : Bool)
    (h : lex.type = LexemeType.Alpha) :
    ∃ run rem : List Lexeme,
      run ++ rem = rest ∧
      (∀ l ∈ run, l.type = LexemeType.Alpha ∨ l.type = LexemeType.Underscore) ∧
      List.Chain' (fun a b => b.isAdjacentTo a = true) (lex :: run) ∧
      (rem = [] ∨ ∃ nx rest2, rem = nx :: rest2 ∧
        ¬((nx.type = LexemeType.Alpha ∨ nx.type = LexemeType.Underscore) ∧
          nx.isAdjacentTo (run.getLastD lex) = true)) ∧
      ((∃ nx rest2, rem = nx :: rest2 ∧ nx.type = LexemeType.ParenthesisOpen ∧
          isFunction (stringifyTokens (lex :: run)) = true) →
        getNextPrimitiveFrom lex rest prev caret =
          .ok (combineTokens PrimitiveTokenType.FunctionName (lex :: run), rem)) ∧
      ((∀ nx rest2, rem = nx :: rest2 →
          ¬(nx.type = LexemeType.ParenthesisOpen ∧
            isFunction (stringifyTokens (lex :: run)) = true)) →
        getNextPrimitiveFrom lex rest prev caret =
          .ok (combineTokens PrimitiveTokenType.Variable (lex :: run), rem)) := by
  refine ⟨(alphaRunTail lex rest).1, (alphaRunTail lex rest).2,
    alphaRunTail_append rest lex, alphaRunTail_types rest lex,
    alphaRunTail_chain rest lex, alphaRunTail_maximal rest lex, ?_, ?_⟩
  · rintro ⟨nx, rest2, heq, hpar, hfn⟩
    obtain ⟨ty, pos, tx⟩ := lex
    simp only at h
    subst h
    have hcnd : (decide (nx.type = LexemeType.ParenthesisOpen) &&
        isFunction (stringifyTokens (⟨LexemeType.Alpha, pos, tx⟩ ::
          (alphaRunTail ⟨LexemeType.Alpha, pos, tx⟩ rest).1))) = true := by
      rw [Bool.and_eq_true]
      exact ⟨decide_eq_true hpar, hfn⟩
    simp only [getNextPrimitiveFrom, heq]
    rw [if_pos hcnd]
  · intro hnofn
    obtain ⟨ty, pos, tx⟩ := lex
    simp only at h
    subst h
    cases heq : (alphaRunTail ⟨LexemeType.Alpha, pos, tx⟩ rest).2 with
    | nil => simp only [getNextPrimitiveFrom, heq]
    | cons nx rest2 =>
      have hcnd : ¬((decide (nx.type = LexemeType.ParenthesisOpen) &&
          isFunction (stringifyTokens (⟨LexemeType.Alpha, pos, tx⟩ ::
            (alphaRunTail ⟨LexemeType.Alpha, pos, tx⟩ rest).1))) = true) := by
        intro hcond
        rw [Bool.and_eq_true] at hcond
        exact hnofn nx rest2 heq ⟨of_decide_eq_true hcond.1, hcond.2⟩
      simp only [getNextPrimitiveFrom, heq]
      rw [if_neg hcnd]

/-- Witness for C6 (amended): the run "pow" followed by an opening parenthesis at
the start of "pow(2, 10)". -/
theorem claim6_alpha_run_amended_witness :
    ∃ run rem : List Lexeme,
      run ++ rem = [⟨LexemeType.Alpha, 1, ['o']⟩, ⟨LexemeType.Alpha, 2, ['w']⟩,
        ⟨LexemeType.ParenthesisOpen, 3, ['(']⟩] ∧
      (∀ l ∈ run, l.type = LexemeType.Alpha ∨ l.type = LexemeType.Underscore) ∧
      List.Chain' (fun a b => b.isAdjacentTo a = true) (⟨LexemeType.Alpha, 0, ['p']⟩ :: run) ∧
      (rem = [] ∨ ∃ nx rest2, rem = nx :: rest2 ∧
        ¬((nx.type = LexemeType.Alpha ∨ nx.type = LexemeType.Underscore) ∧
          nx.isAdjacentTo (run.getLastD ⟨LexemeType.Alpha, 0, ['p']⟩) = true)) ∧
      ((∃ nx rest2, rem = nx :: rest2 ∧ nx.type = LexemeType.ParenthesisOpen ∧
          isFunction (stringifyTokens (⟨LexemeType.Alpha, 0, ['p']⟩ :: run)) = true) →
        getNextPrimitiveFrom ⟨LexemeType.Alpha, 0, ['p']⟩
            [⟨LexemeType.Alpha, 1, ['o']⟩, ⟨LexemeType.Alpha, 2, ['w']⟩,
             ⟨LexemeType.ParenthesisOpen, 3, ['(']⟩] none false =
          .ok (combineTokens PrimitiveTokenType.FunctionName
            (⟨LexemeType.Alpha, 0, ['p']⟩ :: run), rem)) ∧
      ((∀ nx rest2, rem = nx :: rest2 →
          ¬(nx.type = LexemeType.ParenthesisOpen ∧
            isFunction (stringifyTokens (⟨LexemeType.Alpha, 0, ['p']⟩ :: run)) = true)) →
        getNextPrimitiveFrom ⟨LexemeType.Alpha, 0, ['p']⟩
            [⟨LexemeType.Alpha, 1, ['o']⟩, ⟨LexemeType.Alpha, 2, ['w']⟩,
             ⟨LexemeType.ParenthesisOpen, 3, ['(']⟩] none false =
          .ok (combineTokens PrimitiveTokenType.Variable
            (⟨LexemeType.Alpha, 0, ['p']⟩ :: run), rem)) :=
  claim6_alpha_run_amended ⟨LexemeType.Alpha, 0, ['p']⟩
    [⟨LexemeType.Alpha, 1, ['o']⟩, ⟨LexemeType.Alpha, 2, ['w']⟩,
     ⟨LexemeType.ParenthesisOpen, 3, ['(']⟩] none false rfl

/-- Counterexample to C8 as stated: on the input "0b_1" the lexer produces the
BinaryNumber lexeme "0b_1", whose underscore (index 2) is preceded by the prefix
character 'b' rather than lying between two binary digits. -/
theorem claim8_underscore_counterexample :
    getNextLexeme "0b_1".data 0 =
      (⟨LexemeType.BinaryNumber, 0, ['0', 'b', '_', '1']⟩, [], 4) ∧
    ['0', 'b', '_', '1'].get? 2 = some '_' ∧
    isBinDigitChar 'b' = false := by
  refine ⟨by decide, by decide, by decide⟩

/-- Claim C8 (corrected): for every input beginning with '0' immediately followed
by 'b', the lexer produces a BinaryNumber lexeme whose text after "0b" consists
only of '0', '1' and '_', and an underscore is included only when it is
immediately followed by a binary digit (the character before it may also be the
'b' of the prefix itself, as in "0b_1"); an underscore not followed by a binary
digit ends the literal. -/
theorem claim8_binary_lexeme_amended (cs : List Char) (pos : Nat) :
    ∃ body rest,
      getNextLexeme ('0' :: 'b' :: cs) pos =
        (⟨LexemeType.BinaryNumber, pos, '0' :: 'b' :: body⟩, rest, pos + 2 + body.length) ∧
      (∀ c ∈ body, c = '0' ∨ c = '1' ∨ c = '_') ∧
      (∀ pre suf, body = pre ++ '_' :: suf →
        ∃ d suf2, suf = d :: suf2 ∧ isBinDigitChar d = true) := by
  refine ⟨(binaryBody (cs.length + 1) cs).1, (binaryBody (cs.length + 1) cs).2,
    rfl, binaryBody_chars (cs.length + 1) cs,
    binaryBody_underscore (cs.length + 1) cs (by omega)⟩

/-- Witness for C8 (amended) on the input "0b1_10". -/
theorem claim8_binary_lexeme_amended_witness :
    ∃ body rest,
      getNextLexeme ('0' :: 'b' :: ['1', '_', '1', '0']) 0 =
        (⟨LexemeType.BinaryNumber, 0, '0' :: 'b' :: body⟩, rest, 0 + 2 + body.length) ∧
      (∀ c ∈ body, c = '0' ∨ c = '1' ∨ c = '_') ∧
      (∀ pre suf, body = pre ++ '_' :: suf →
        ∃ d suf2, suf = d :: suf2 ∧ isBinDigitChar d = true) :=
  claim8_binary_lexeme_amended ['1', '_', '1', '0'] 0

/-- Claim C4 (code bug): the positive example holds — "pow(2, 10)" evaluates to
1024 — but the arity lookahead does not count top-level comma-delimited
arguments: it counts number-evaluating tokens at depth 1 (plus depth-2 bracket
groups), so "pow(1 + 2, 2)", whose two comma-delimited arguments match pow's
declared arity (and which the TermSeparator comment in to_rpn.hpp itself gives
as a working example), is rejected with "expects 2 parameters but 3 were
provided"; and "pow(2,10,5)" fails not with the claimed arity error but with a
numeric-conversion error, because the lexer folds "10,5" into a single integer
lexeme (a comma directly followed by a digit is kept in the literal), leaving
only two counted arguments. -/
theorem claim4_arity_lookahead_behavior :
    evaluateString "pow(2, 10)" = .ok [.ok (Number.int 1024)] ∧
    evaluateString "pow(1 + 2, 2)" =
      .ok [.error (.arityMismatch ['p', 'o', 'w'] 2 3)] ∧
    evaluateString "pow(2,10,5)" =
      .ok [.error (.badNumber ['1', '0', ',', '5'])] := by
  refine ⟨by decide, by decide, by decide⟩

/-- The accumulator step of base-2 digit reading. -/
def binFold (a : Nat) (c : Char) : Nat :=
  a * 2 + (if c = '1' then 1 else 0)

theorem digitsToNat_binary :
    ∀ (s : List Char), (∀ c ∈ s, c = '0' ∨ c = '1') →
      ∀ acc : Nat, digitsToNat 2 s (some acc) = some (s.foldl binFold acc) := by
  intro s
  induction s with
  | nil => intro _ acc; rfl
  | cons c rest ih =>
    intro h acc
    have hrest : ∀ x ∈ rest, x = '0' ∨ x = '1' :=
      fun x hx => h x (List.mem_cons_of_mem c hx)
    rcases h c (List.mem_cons_self c rest) with rfl | rfl
    · rw [digitsToNat]
      show digitsToNat 2 rest (some (acc * 2 + 0)) = _
      rw [ih hrest (acc * 2 + 0)]
      rfl
    · rw [digitsToNat]
      show digitsToNat 2 rest (some (acc * 2 + 1)) = _
      rw [ih hrest (acc * 2 + 1)]
      rfl

theorem binFold_le (rest : List Char) :
    ∀ a : Nat, a ≤ rest.foldl binFold a := by
  induction rest with
  | nil => intro a; exact Nat.le_refl a
  | cons c rest2 ih =>
    intro a
    calc a ≤ binFold a c := by unfold binFold; omega
    _ ≤ rest2.foldl binFold (binFold a c) := ih _
    _ = (c :: rest2).foldl binFold a := rfl

theorem binVal_pos (s : List Char) (h : s.head? = some '1') :
    0 < s.foldl binFold 0 := by
  cases s with
  | nil => exact Option.noConfusion h
  | cons c rest =>
    have hc : c = '1' := by simpa using h
    subst hc
    have h1 : binFold 0 '1' = 1 := rfl
    calc 0 < 1 := Nat.one_pos
    _ = binFold 0 '1' := h1.symm
    _ ≤ rest.foldl binFold (binFold 0 '1') := binFold_le rest _
    _ = ('1' :: rest).foldl binFold 0 := rfl

theorem natDigitsRev_fuel (n : ℕ) :
    ∀ f1 f2, n ≤ f1 → n ≤ f2 → natDigitsRev 2 f1 n = natDigitsRev 2 f2 n := by
  induction n using Nat.strong_induction_on with
  | _ n ih =>
    intro f1 f2 h1 h2
    cases n with
    | zero =>
      cases f1 with
      | zero =>
        cases f2 with
        | zero => rfl
        | succ g2 => rw [natDigitsRev, natDigitsRev, if_pos rfl]
      | succ g1 =>
        cases f2 with
        | zero => rw [natDigitsRev, natDigitsRev, if_pos rfl]
        | succ g2 => rw [natDigitsRev, natDigitsRev, if_pos rfl, if_pos rfl]
    | succ m =>
      cases f1 with
      | zero => omega
      | succ g1 =>
        cases f2 with
        | zero => omega
        | succ g2 =>
          rw [natDigitsRev, natDigitsRev, if_neg (Nat.succ_ne_zero m),
            if_neg (Nat.succ_ne_zero m)]
          congr 1
          exact ih ((m + 1) / 2) (by omega) g1 g2 (by omega) (by omega)

theorem natDigitsRev_step (m dv : ℕ) (hm : 0 < m) (hd : dv < 2) :
    natDigitsRev 2 (m * 2 + dv) (m * 2 + dv) =
      digitChar dv :: natDigitsRev 2 m m := by
  have hn : m * 2 + dv ≠ 0 := by omega
  cases hfuel : m * 2 + dv with
  | zero => omega
  | succ g =>
    rw [natDigitsRev, if_neg (by omega)]
    have hmod : (g + 1) % 2 = dv := by omega
    have hdiv : (g + 1) / 2 = m := by omega
    rw [hmod, hdiv]
    congr 1
    exact natDigitsRev_fuel m g m (by omega) (Nat.le_refl m)

theorem ntosNat_inv (s : List Char) :
    s ≠ [] → (∀ c ∈ s, c = '0' ∨ c = '1') → s.head? = some '1' →
      (natDigitsRev 2 (s.foldl binFold 0) (s.foldl binFold 0)).reverse = s := by
  induction s using List.reverseRecOn with
  | nil => intro h; exact absurd rfl h
  | append_singleton s2 d ih =>
    intro _ hbin hhead
    cases s2 with
    | nil =>
      have hd : d = '1' := by simpa using hhead
      subst hd
      decide
    | cons c rest =>
      have hbin2 : ∀ x ∈ c :: rest, x = '0' ∨ x = '1' :=
        fun x hx => hbin x (List.mem_append_left [d] hx)
      have hhead2 : (c :: rest).head? = some '1' := by
        simpa using hhead
      have hval : ((c :: rest) ++ [d]).foldl binFold 0 =
          ((c :: rest).foldl binFold 0) * 2 + (if d = '1' then 1 else 0) := by
        rw [List.foldl_append]
        rfl
      have hm : 0 < (c :: rest).foldl binFold 0 := binVal_pos _ hhead2
      have hdv : (if d = '1' then 1 else 0) < 2 := by
        by_cases h : d = '1' <;> simp [h]
      rw [hval, natDigitsRev_step _ _ hm hdv, List.reverse_cons,
        ih (by simp) hbin2 hhead2]
      have hdchar : digitChar (if d = '1' then 1 else 0) = d := by
        rcases hbin d (List.mem_append_right _ (List.mem_cons_self d [])) with rfl | rfl
        · decide
        · decide
      rw [hdchar]

theorem numToBin_pos (n : ℕ) (h : 0 < n) :
    numToBin (Number.int (n : ℤ)) = .ok ('0' :: 'b' :: (natDigitsRev 2 n n).reverse) := by
  have hz : (Number.int (n : ℤ)).isZero = false := by
    simp [Number.isZero]
    omega
  have hneg : ¬((n : ℤ) < 0) := by omega
  unfold numToBin toBase
  rw [hz]
  simp [Number.hasIntegralValue, Number.castToInt, ntos, hneg]

/-- Claim C9 (confirmed): tokenizing "0b1010" through the pipeline yields the
integer 10, formatting that Number back in base 2 yields "0b1010", and in
general for every canonical binary digit string (non-empty, no leading zero
except "0" itself — the prefix/separator-normalized form) base-2 formatting
inverts base-2 parsing. -/
theorem claim9_base2_roundtrip :
    evaluateString "0b1010" = .ok [.ok (Number.int 10)] ∧
    numToBin (Number.int 10) = .ok ['0', 'b', '1', '0', '1', '0'] ∧
    (∀ s : List Char, s ≠ [] → (∀ c ∈ s, c = '0' ∨ c = '1') →
      (s.head? = some '1' ∨ s = ['0']) →
      ∃ n : ℕ, fromBase s 2 = .ok (Number.int (n : ℤ)) ∧
        numToBin (Number.int (n : ℤ)) = .ok ('0' :: 'b' :: s)) := by
  refine ⟨by decide, by decide, ?_⟩
  intro s hne hbin hcanon
  rcases hcanon with hhead | rfl
  · refine ⟨s.foldl binFold 0, ?_, ?_⟩
    · have hnodot : s.contains '.' = false := by
        rw [Bool.eq_false_iff]
        intro hc
        have hmem : '.' ∈ s := by simpa using hc
        rcases hbin '.' hmem with h | h <;> exact absurd h (by decide)
      rw [fromBase, if_neg (by omega), if_neg (by rw [hnodot]; decide)]
      rw [digitsToNat_binary s hbin 0]
    · have hpos : 0 < s.foldl binFold 0 := binVal_pos s hhead
      rw [numToBin_pos (s.foldl binFold 0) hpos, ntosNat_inv s hne hbin hhead]
  · exact ⟨0, by decide, by decide⟩

/-- Witness for C9 on the canonical binary string "1010". -/
theorem claim9_base2_roundtrip_witness :
    ∃ n : ℕ, fromBase ['1', '0', '1', '0'] 2 = .ok (Number.int (n : ℤ)) ∧
      numToBin (Number.int (n : ℤ)) = .ok ('0' :: 'b' :: ['1', '0', '1', '0']) :=
  claim9_base2_roundtrip.2.2 ['1', '0', '1', '0'] (by decide)
    (by decide) (Or.inl (by decide))

end CalcSpec
